import Mathlib

/-!
Shallow embedding of the fsp-observer ingestion pipeline
(src/observer/observer.py, src/observer/reward_epoch_manager.py,
src/observer/voting_round.py) together with proofs about the claims of the
specification.  Python dictionaries are modelled as insertion-ordered
association lists, Python ints as `Int` (or `Nat` where the source value is
a byte / an index), raised exceptions as `Except` / `Option` results.
-/

namespace FspObserver

/-- Checksum addresses are opaque identifiers compared by equality. -/
abbrev Address := Nat

/-- Byte strings (`HexBytes` values, calldata, event data) as lists of bytes. -/
abbrev Bytes := List Nat

/-- Python exceptions that the embedded code can raise. -/
inductive PyErr where
  | indexError
  | assertionError
  | valueError (msg : String)
deriving DecidableEq

/-! ### Python dict primitives

A Python `dict` is an insertion-ordered association list: assignment to an
existing key replaces the value in place, assignment to a fresh key appends. -/

/-- `d[k] = v` on an insertion-ordered dict. -/
def pySet {K V : Type} [DecidableEq K] : List (K × V) → K → V → List (K × V)
  | [], k, v => [(k, v)]
  | (k', v') :: rest, k, v =>
      if k' = k then (k, v) :: rest else (k', v') :: pySet rest k v

/-- `d.get(k)` on an insertion-ordered dict. -/
def pyGet {K V : Type} [DecidableEq K] (l : List (K × V)) (k : K) : Option V :=
  (l.find? (fun p => decide (p.1 = k))).map (fun p => p.2)

/-- A dict comprehension `{k(x): v(x) for x in l}`: later duplicate keys win. -/
def pyDict {K V : Type} [DecidableEq K] (l : List (K × V)) : List (K × V) :=
  l.foldl (fun d p => pySet d p.1 p.2) []

/-- `d.pop(k, None)`: remove the (unique) entry with key `k`, if present. -/
def pyPop {K V : Type} [DecidableEq K] (l : List (K × V)) (k : K) : List (K × V) :=
  l.eraseP (fun p => decide (p.1 = k))

/-! ### Epoch calculus

Modelled from the spec: the epoch classes live in the external library
`py_flare_common` (spec section 3).  A `VotingEpoch` is an integer id; two
voting epochs with equal id compare equal and hash equal.  The derived
times come from the factory: consecutive windows of fixed duration `dur`
starting at `t0`, and `reveal_deadline() = start_s + 45` (a documented
constant). -/

structure VotingEpoch where
  id : Int
deriving DecidableEq

structure RewardEpoch where
  id : Int
deriving DecidableEq

/-- Modelled from the spec: the epoch factory configuration (voting epoch
duration `dur` and chain genesis offset `t0`). -/
structure EpochCfg where
  t0 : Int
  dur : Int
deriving DecidableEq

def VotingEpoch.next (v : VotingEpoch) : VotingEpoch := ⟨v.id + 1⟩

def VotingEpoch.previous (v : VotingEpoch) : VotingEpoch := ⟨v.id - 1⟩

def VotingEpoch.start_s (v : VotingEpoch) (cfg : EpochCfg) : Int :=
  cfg.t0 + v.id * cfg.dur

def VotingEpoch.end_s (v : VotingEpoch) (cfg : EpochCfg) : Int :=
  cfg.t0 + (v.id + 1) * cfg.dur

def VotingEpoch.reveal_deadline (v : VotingEpoch) (cfg : EpochCfg) : Int :=
  v.start_s cfg + 45

def RewardEpoch.next (r : RewardEpoch) : RewardEpoch := ⟨r.id + 1⟩

/-! ### Contract events

Modelled from the spec: the event record types live in `observer/types.py`,
which is not under `src/`; their fields are taken from spec sections 4.1 and 6
and from how `SigningPolicyBuilder.build` (which is under `src/`) reads them. -/

structure RandomAcquisitionStarted where
  reward_epoch_id : Int
deriving DecidableEq

structure VotePowerBlockSelected where
  reward_epoch_id : Int
  vote_power_block : Int
deriving DecidableEq

structure VoterRegistered where
  reward_epoch_id : Int
  voter : Address
  signing_policy_address : Address
  submit_address : Address
  submit_signatures_address : Address
  public_key : String
  registration_weight : Int
deriving DecidableEq

structure VoterRegistrationInfo where
  reward_epoch_id : Int
  voter : Address
  delegation_address : Address
  delegation_fee_bips : Int
  w_nat_weight : Int
  w_nat_capped_weight : Int
  node_ids : List String
  node_weights : List Int
deriving DecidableEq

structure VoterRemoved where
  reward_epoch_id : Int
  voter : Address
deriving DecidableEq

structure SigningPolicyInitialized where
  reward_epoch_id : Int
  start_voting_round_id : Int
  threshold : Int
  seed : Int
  signing_policy_bytes : String
  voters : List Address
  weights : List Int
deriving DecidableEq

/-- Modelled from the spec: `ProtocolMessageRelayed` (observer/types.py is not
under `src/`); the observer uses `protocol_id`, `voting_round_id`, `timestamp`
and the 32-byte hash returned by `to_message()`. -/
structure ProtocolMessageRelayed where
  protocol_id : Int
  voting_round_id : Int
  timestamp : Int
  message : Bytes
deriving DecidableEq

def ProtocolMessageRelayed.to_message (e : ProtocolMessageRelayed) : Bytes :=
  e.message

/-- Modelled from the spec: `AttestationRequest` (observer/types.py is not under
`src/`): ingestion order data `(block, log_index)`, the raw request `data`
bytes used as dedup key, the voting epoch derived at decode time, and the
string representations of attestation type / source id used in messages. -/
structure AttestationRequest where
  block : Int
  log_index : Int
  data : Bytes
  voting_epoch_id : VotingEpoch
  attestation_type_rep : String
  source_id_rep : String
deriving DecidableEq

/-! ### Entity model (src/observer/reward_epoch_manager.py) -/

structure Node where
  node_id : String
  weight : Int
deriving DecidableEq

structure Entity where
  identity_address : Address
  submit_address : Address
  submit_signatures_address : Address
  signing_policy_address : Address
  delegation_address : Address
  public_key : String
  nodes : List Node
  delegation_fee_bips : Int
  w_nat_weight : Int
  w_nat_capped_weight : Int
  registration_weight : Int
  normalized_weight : Int
deriving DecidableEq

structure EntityMapper where
  by_identity_address : List (Address × Entity)
  by_submit_address : List (Address × Entity)
  by_submit_signatures_address : List (Address × Entity)
  by_signing_policy_address : List (Address × Entity)
  by_delegation_address : List (Address × Entity)
  by_omni : List (Address × Entity)
deriving DecidableEq

def EntityMapper.empty : EntityMapper := ⟨[], [], [], [], [], []⟩

def EntityMapper.insert (m : EntityMapper) (e : Entity) : EntityMapper where
  by_identity_address := pySet m.by_identity_address e.identity_address e
  by_submit_address := pySet m.by_submit_address e.submit_address e
  by_submit_signatures_address :=
    pySet m.by_submit_signatures_address e.submit_signatures_address e
  by_signing_policy_address :=
    pySet m.by_signing_policy_address e.signing_policy_address e
  by_delegation_address := pySet m.by_delegation_address e.delegation_address e
  by_omni :=
    pySet (pySet (pySet (pySet (pySet m.by_omni e.identity_address e)
      e.submit_address e) e.submit_signatures_address e)
      e.signing_policy_address e) e.delegation_address e

structure SigningPolicy where
  reward_epoch : RewardEpoch
  vote_power_block : Int
  start_voting_round : Int
  threshold : Int
  seed : Int
  signing_policy_bytes : String
  entities : List Entity
  entity_mapper : EntityMapper
deriving DecidableEq

structure SigningPolicyBuilder where
  reward_epoch : Option RewardEpoch
  random_acquisation_started : Option RandomAcquisitionStarted
  vote_power_block_selected : Option VotePowerBlockSelected
  voter_registered : List VoterRegistered
  voter_registration_info : List VoterRegistrationInfo
  voter_removed : List VoterRemoved
  signing_policy_initialized : Option SigningPolicyInitialized
deriving DecidableEq

/-- `SigningPolicy.builder()`: a fresh builder with all slots empty. -/
def SigningPolicyBuilder.empty : SigningPolicyBuilder :=
  ⟨none, none, none, [], [], [], none⟩

def SigningPolicyBuilder.for_epoch (b : SigningPolicyBuilder) (r : RewardEpoch) :
    SigningPolicyBuilder :=
  { b with reward_epoch := some r }

/-- The index `{v.signing_policy_address: v.voter for v in voter_registered}`. -/
def spaIndex (vr : List VoterRegistered) : List (Address × Address) :=
  pyDict (vr.map fun v => (v.signing_policy_address, v.voter))

/-- The index `{v.voter: v for v in voter_registered}`. -/
def vresIndex (vr : List VoterRegistered) : List (Address × VoterRegistered) :=
  pyDict (vr.map fun v => (v.voter, v))

/-- The index `{v.voter: v for v in voter_registration_info}`. -/
def vriesIndex (vri : List VoterRegistrationInfo) :
    List (Address × VoterRegistrationInfo) :=
  pyDict (vri.map fun v => (v.voter, v))

/-- The `Entity(...)` constructor call inside `SigningPolicyBuilder.build`:
nodes are `zip(node_ids, node_weights)` (truncating like Python `zip`), the
weight taken from `signing_policy_initialized.weights[i]` becomes
`normalized_weight`. -/
def mkEntityFrom (vre : VoterRegistered) (vrie : VoterRegistrationInfo)
    (weight : Int) : Entity where
  identity_address := vre.voter
  submit_address := vre.submit_address
  submit_signatures_address := vre.submit_signatures_address
  signing_policy_address := vre.signing_policy_address
  delegation_address := vrie.delegation_address
  public_key := vre.public_key
  nodes := (vrie.node_ids.zip vrie.node_weights).map fun p => ⟨p.1, p.2⟩
  delegation_fee_bips := vrie.delegation_fee_bips
  w_nat_weight := vrie.w_nat_weight
  w_nat_capped_weight := vrie.w_nat_capped_weight
  registration_weight := vre.registration_weight
  normalized_weight := weight

/-- The entity-construction loop of `build`: iterate over
`signing_policy_initialized.voters` with the matching `weights[i]`
(`IndexError` — `none` — when `weights` is too short), resolving each voter
through the three dict indexes (`KeyError` — `none` — when a lookup fails). -/
def buildEntities (spa : List (Address × Address))
    (vres : List (Address × VoterRegistered))
    (vries : List (Address × VoterRegistrationInfo)) :
    List Address → List Int → Option (List Entity)
  | [], _ => some []
  | _ :: _, [] => none
  | voter :: vs, w :: ws =>
      match pyGet spa voter with
      | none => none
      | some v0 =>
          match pyGet vres v0, pyGet vries v0 with
          | some vre, some vrie =>
              match buildEntities spa vres vries vs ws with
              | none => none
              | some rest => some (mkEntityFrom vre vrie w :: rest)
          | _, _ => none

/-- `mapper = EntityMapper(); for e in entities: mapper.insert(e)`. -/
def mkEntityMapper (entities : List Entity) : EntityMapper :=
  entities.foldl EntityMapper.insert EntityMapper.empty

/-- `SigningPolicyBuilder.build` (reward_epoch_manager.py lines 167-225).
Failed `assert`s and failed dict lookups (Python exceptions) give `none`. -/
def SigningPolicyBuilder.build (b : SigningPolicyBuilder) :
    Option SigningPolicy :=
  match b.reward_epoch with
  | none => none
  | some re =>
      match b.random_acquisation_started with
      | none => none
      | some ras =>
          if ras.reward_epoch_id ≠ re.id then none else
          match b.vote_power_block_selected with
          | none => none
          | some vpbs =>
              if vpbs.reward_epoch_id ≠ re.id then none else
              match b.signing_policy_initialized with
              | none => none
              | some spi =>
                  if spi.reward_epoch_id ≠ re.id then none else
                  if b.voter_registered.length ≠ b.voter_registration_info.length
                  then none else
                  match buildEntities (spaIndex b.voter_registered)
                      (vresIndex b.voter_registered)
                      (vriesIndex b.voter_registration_info)
                      spi.voters spi.weights with
                  | none => none
                  | some entities =>
                      some { reward_epoch := re
                             vote_power_block := vpbs.vote_power_block
                             start_voting_round := spi.start_voting_round_id
                             threshold := spi.threshold
                             seed := spi.seed
                             signing_policy_bytes := spi.signing_policy_bytes
                             entities := entities
                             entity_mapper := mkEntityMapper entities }

/-! ### Submission payload types

The binary payload parsers are external (py_flare_common); these records
mirror the parsed payload fields that `src/` reads (spec section 6). -/

structure SSignature where
  v : Nat
  r : Nat
  s : Nat
deriving DecidableEq

structure FtsoSubmit1 where
  commit_hash : String
deriving DecidableEq

structure FtsoSubmit2 where
  values : List (Option Int)
deriving DecidableEq

structure FdcSubmit1 where
  raw : Bytes
deriving DecidableEq

structure FdcSubmit2 where
  number_of_requests : Int
  bit_vector : List Bool
deriving DecidableEq

structure SubmitSignatures where
  signature : SSignature
  unsigned_message : Bytes
deriving DecidableEq

structure ParsedPayload (T : Type) where
  voting_round_id : Int
  payload : T
deriving DecidableEq

/-! ### Voting round state (src/observer/voting_round.py) -/

/-- `WTxData` (voting_round.py lines 22-62): the wrapped transaction
projection.  `wrapped` is the raw RPC value and is not modelled. -/
structure WTxData where
  hash : Nat
  to_address : Option Address
  input : Bytes
  block_number : Int
  timestamp : Int
  transaction_index : Int
  from_address : Address
  value : Int
deriving DecidableEq

structure WParsedPayload (T : Type) where
  parsed_payload : ParsedPayload T
  wtx_data : WTxData
deriving DecidableEq

structure WParsedPayloadList (T : Type) where
  agg : List (WParsedPayload T)
deriving DecidableEq

/-- The loop body of `WParsedPayloadList.extract_latest`. -/
def extractStep {T : Type} (rstart rstop : Int)
    (latest : Option (WParsedPayload T)) (wpp : WParsedPayload T) :
    Option (WParsedPayload T) :=
  if ¬ (rstart ≤ wpp.wtx_data.timestamp ∧ wpp.wtx_data.timestamp < rstop) then
    latest
  else
    match latest with
    | none => some wpp
    | some cur =>
        if cur.wtx_data.timestamp < wpp.wtx_data.timestamp then some wpp
        else latest

/-- `WParsedPayloadList.extract_latest(r)` (voting_round.py lines 75-87).
The Python `range(a, b)` argument is passed as its endpoints `rstart`,
`rstop`; membership `r.start <= t < r.stop` is the half-open test. -/
def WParsedPayloadList.extract_latest {T : Type} (l : WParsedPayloadList T)
    (rstart rstop : Int) : Option (WParsedPayload T) :=
  l.agg.foldl (extractStep rstart rstop) none

structure ParsedPayloadMapper (T : Type) where
  by_identity : List (Address × WParsedPayloadList T)
deriving DecidableEq

/-- `by_identity[x]` on the defaultdict: a missing key behaves as the empty
list. -/
def ParsedPayloadMapper.getList {T : Type} (m : ParsedPayloadMapper T)
    (a : Address) : WParsedPayloadList T :=
  match pyGet m.by_identity a with
  | some l => l
  | none => ⟨[]⟩

/-- `ParsedPayloadMapper.insert`: append to the sender identity's bucket
(creating the defaultdict entry on first touch). -/
def ParsedPayloadMapper.insert {T : Type} (m : ParsedPayloadMapper T)
    (e : Entity) (wpp : WParsedPayload T) : ParsedPayloadMapper T :=
  ⟨pySet m.by_identity e.identity_address
    ⟨(m.getList e.identity_address).agg ++ [wpp]⟩⟩

structure VotingRoundProtocol (S1 S2 SS : Type) where
  submit_1 : ParsedPayloadMapper S1
  submit_2 : ParsedPayloadMapper S2
  submit_signatures : ParsedPayloadMapper SS
  finalization : Option ProtocolMessageRelayed
deriving DecidableEq

def VotingRoundProtocol.empty {S1 S2 SS : Type} :
    VotingRoundProtocol S1 S2 SS :=
  ⟨⟨[]⟩, ⟨[]⟩, ⟨[]⟩, none⟩

def VotingRoundProtocol.insert_submit_1 {S1 S2 SS : Type}
    (p : VotingRoundProtocol S1 S2 SS) (e : Entity) (pp : ParsedPayload S1)
    (wtx : WTxData) : VotingRoundProtocol S1 S2 SS :=
  { p with submit_1 := p.submit_1.insert e ⟨pp, wtx⟩ }

def VotingRoundProtocol.insert_submit_2 {S1 S2 SS : Type}
    (p : VotingRoundProtocol S1 S2 SS) (e : Entity) (pp : ParsedPayload S2)
    (wtx : WTxData) : VotingRoundProtocol S1 S2 SS :=
  { p with submit_2 := p.submit_2.insert e ⟨pp, wtx⟩ }

def VotingRoundProtocol.insert_submit_signatures {S1 S2 SS : Type}
    (p : VotingRoundProtocol S1 S2 SS) (e : Entity) (pp : ParsedPayload SS)
    (wtx : WTxData) : VotingRoundProtocol S1 S2 SS :=
  { p with submit_signatures := p.submit_signatures.insert e ⟨pp, wtx⟩ }

abbrev FtsoVotingRoundProtocol :=
  VotingRoundProtocol FtsoSubmit1 FtsoSubmit2 SubmitSignatures

structure AttestationRequestMapper where
  agg : List AttestationRequest
deriving DecidableEq

/-- The sort key order of `AttestationRequestMapper.sorted`:
`(block, log_index)` ascending, as a (non-strict, total) lexicographic
preorder, so that a stable sort under it models Python's stable `sorted`. -/
def arKeyLe (a b : AttestationRequest) : Prop :=
  a.block < b.block ∨ (a.block = b.block ∧ a.log_index ≤ b.log_index)

instance : DecidableRel arKeyLe := fun a b => by
  unfold arKeyLe; infer_instance

/-- The dedup loop of `AttestationRequestMapper.sorted`: walk the sorted list
keeping the first occurrence of each `data` value (`seen` is the set of data
values already kept). -/
def dedupByData : List AttestationRequest → List Bytes → List AttestationRequest
  | [], _ => []
  | ar :: rest, seen =>
      if ar.data ∈ seen then dedupByData rest seen
      else ar :: dedupByData rest (ar.data :: seen)

/-- `AttestationRequestMapper.sorted` (voting_round.py lines 131-142): stable
sort by `(block, log_index)`, first-occurrence dedup on `data`, reversed.
Python's `sorted` is a stable sort; `List.insertionSort` with the non-strict
total preorder `arKeyLe` is extensionally the same stable sort. -/
def AttestationRequestMapper.sorted (m : AttestationRequestMapper) :
    List AttestationRequest :=
  (dedupByData (List.insertionSort arKeyLe m.agg) []).reverse

structure FdcVotingRoundProtocol extends
    VotingRoundProtocol FdcSubmit1 FdcSubmit2 SubmitSignatures where
  requests : AttestationRequestMapper
  consensus_bitvote : List (Bytes × Nat)
deriving DecidableEq

def FdcVotingRoundProtocol.empty : FdcVotingRoundProtocol :=
  ⟨VotingRoundProtocol.empty, ⟨[]⟩, []⟩

structure VotingRound where
  voting_epoch : VotingEpoch
  ftso : FtsoVotingRoundProtocol
  fdc : FdcVotingRoundProtocol
deriving DecidableEq

/-- `VotingRound(v)` with the default (empty) protocol states. -/
def VotingRound.fresh (v : VotingEpoch) : VotingRound :=
  ⟨v, VotingRoundProtocol.empty, FdcVotingRoundProtocol.empty⟩

/-! ### VotingRoundManager (voting_round.py lines 162-189) -/

structure VRMState where
  finalized : Int
  rounds : List (VotingEpoch × VotingRound)
deriving DecidableEq

/-- `VotingRoundManager(finalized)`: the constructor, with an empty rounds
dict. -/
def VRMState.init (f : Int) : VRMState := ⟨f, []⟩

/-- `VotingRoundManager.get` (lines 167-170): insert-if-absent, return the
round together with the updated state. -/
def VRMState.get (s : VRMState) (v : VotingEpoch) : VotingRound × VRMState :=
  match pyGet s.rounds v with
  | some r => (r, s)
  | none =>
      let r := VotingRound.fresh v
      (r, { s with rounds := s.rounds ++ [(v, r)] })

/-- The loop of `VotingRoundManager.finalize` over the snapshot of the keys
(pairs carry the snapshot values: nothing changes a value of a still-present
key during the loop, so `self.rounds.pop(k)` returns the snapshot value).
Accumulates `(finalized, rounds-dict, output list)`. -/
def finalizeLoop (cfg : EpochCfg) (ts : Int) :
    List (VotingEpoch × VotingRound) → Int →
    List (VotingEpoch × VotingRound) → List VotingRound →
    Int × List (VotingEpoch × VotingRound) × List VotingRound
  | [], fin, rmap, out => (fin, rmap, out)
  | (k, r) :: rest, fin, rmap, out =>
      if k.id ≤ fin then
        finalizeLoop cfg ts rest fin (pyPop rmap k) out
      else if (k.next.end_s cfg) < ts then
        finalizeLoop cfg ts rest (max fin k.id) (pyPop rmap k) (out ++ [r])
      else
        finalizeLoop cfg ts rest fin rmap out

/-- `VotingRoundManager.finalize(block)` (lines 172-189), given the block's
timestamp `ts`.  Returns the finalized rounds and the updated state. -/
def VRMState.finalize (cfg : EpochCfg) (s : VRMState) (ts : Int) :
    List VotingRound × VRMState :=
  match finalizeLoop cfg ts s.rounds s.finalized s.rounds [] with
  | (fin, rmap, out) => (out, ⟨fin, rmap⟩)

/-- One observable operation on a `VotingRoundManager`. -/
inductive VRMOp where
  | get (v : VotingEpoch)
  | finalize (ts : Int)
deriving DecidableEq

/-- Run one operation; `get` produces no output, `finalize` outputs its list
of finalized rounds. -/
def runOp (cfg : EpochCfg) (s : VRMState) : VRMOp → VRMState × List VotingRound
  | .get v => ((s.get v).2, [])
  | .finalize ts =>
      match s.finalize cfg ts with
      | (out, s') => (s', out)

/-- Run a sequence of operations, collecting the per-operation outputs. -/
def runTrace (cfg : EpochCfg) (s : VRMState) :
    List VRMOp → VRMState × List (List VotingRound)
  | [] => (s, [])
  | op :: rest =>
      match runOp cfg s op with
      | (s', out) =>
          match runTrace cfg s' rest with
          | (sf, outs) => (sf, out :: outs)

/-! ### Messages

Modelled from the spec: `Message` / `MessageLevel` live in
`observer/message.py`, which is not under `src/`; spec section 3 gives
`(network, round?, protocol?, level, text)` with levels
`INFO < WARNING < ERROR < CRITICAL`. -/

inductive MessageLevel where
  | INFO
  | WARNING
  | ERROR
  | CRITICAL
deriving DecidableEq

structure Message where
  network : Int
  round : Option VotingEpoch
  protocol : Option Int
  level : MessageLevel
  message : String
deriving DecidableEq

/-- `Message.builder().add(network, round, protocol).build(level, text)`. -/
def mkMessage (network : Int) (round : Option VotingEpoch)
    (protocol : Option Int) (level : MessageLevel) (text : String) : Message :=
  ⟨network, round, protocol, level, text⟩

/-! ### FTSO validator (observer.py lines 220-315)

The external collaborators (generic tx re-parse + ByteParser, commit-hash
computation, secp256k1 recovery with v-normalization and checksum encoding)
are passed in as function parameters. -/

/-- submit_1 selection window: `[e.start_s, e.end_s)` on the monitored
identity's ftso submit_1 bucket. -/
def ftsoSubmit1Sel (cfg : EpochCfg) (round : VotingRound) (entity : Entity) :
    Option (WParsedPayload FtsoSubmit1) :=
  (round.ftso.submit_1.getList entity.identity_address).extract_latest
    (round.voting_epoch.start_s cfg) (round.voting_epoch.end_s cfg)

/-- submit_2 selection window: `[next.start_s, next.reveal_deadline())`. -/
def ftsoSubmit2Sel (cfg : EpochCfg) (round : VotingRound) (entity : Entity) :
    Option (WParsedPayload FtsoSubmit2) :=
  (round.ftso.submit_2.getList entity.identity_address).extract_latest
    (round.voting_epoch.next.start_s cfg)
    (round.voting_epoch.next.reveal_deadline cfg)

/-- `sig_grace = max(next.start_s + 55 + 1, (finalization and
finalization.timestamp + 1) or 0)`; the Python `and`/`or` chain evaluates to
`0` when `finalization` is `None`. -/
def sigGrace (cfg : EpochCfg) (epoch : VotingEpoch)
    (finalization : Option ProtocolMessageRelayed) : Int :=
  max (epoch.next.start_s cfg + 55 + 1)
    (match finalization with
     | none => 0
     | some f => f.timestamp + 1)

/-- submit_signatures selection window:
`[next.reveal_deadline(), sig_grace)`. -/
def ftsoSubmitSigSel (cfg : EpochCfg) (round : VotingRound) (entity : Entity) :
    Option (WParsedPayload SubmitSignatures) :=
  (round.ftso.submit_signatures.getList entity.identity_address).extract_latest
    (round.voting_epoch.next.reveal_deadline cfg)
    (sigGrace cfg round.voting_epoch round.ftso.finalization)

/-- `validate_ftso(round, entity, config)`.  `reparse` abstracts
`ByteParser(parse_generic_tx(input).ftso.payload)` → `(uint256 rnd, drained
feed bytes)`; `commitHashFn` abstracts `commit_hash`; `recoverFn` abstracts
signature recovery to a checksum address. -/
def validate_ftso (cfg : EpochCfg) (network : Int) (round : VotingRound)
    (entity : Entity) (reparse : Bytes → Int × Bytes)
    (commitHashFn : Address → Int → Int → Bytes → String)
    (recoverFn : SSignature → Bytes → Address) : List Message :=
  let epoch := round.voting_epoch
  let finalization := round.ftso.finalization
  let submit_1 := ftsoSubmit1Sel cfg round entity
  let submit_2 := ftsoSubmit2Sel cfg round entity
  let submit_sig := ftsoSubmitSigSel cfg round entity
  let mb := fun lvl text => mkMessage network (some epoch) (some 100) lvl text
  (if submit_1.isNone then [mb .INFO ("no submit1 transaction")] else [])
  ++ (if submit_1.isSome ∧ submit_2.isNone then
        [mb .CRITICAL ("no submit2 transaction, causing reveal offence")]
      else [])
  ++ (match submit_2 with
      | none => []
      | some s2 =>
          let indices := ((s2.parsed_payload.payload.values.enum.filter
            (fun p => p.2.isNone)).map (fun p => toString p.1))
          if indices ≠ [] then
            [mb .WARNING ("submit 2 had \x27None\x27 on indices "
              ++ String.intercalate ", " indices)]
          else [])
  ++ (match submit_1, submit_2 with
      | some s1, some s2 =>
          let rf := reparse s2.wtx_data.input
          let hashed := commitHashFn entity.submit_address epoch.id rf.1 rf.2
          if s1.parsed_payload.payload.commit_hash ≠ hashed then
            [mb .CRITICAL
              ("commit hash and reveal didn\x27t match, causing reveal offence")]
          else []
      | _, _ => [])
  ++ (if submit_sig.isNone then
        [mb .ERROR ("no submit signatures transaction")]
      else [])
  ++ (match finalization, submit_sig with
      | some fin, some sg =>
          if recoverFn sg.parsed_payload.payload.signature fin.to_message
              ≠ entity.signing_policy_address then
            [mb .ERROR ("submit signatures signature doesn\x27t match finalization")]
          else []
      | _, _ => [])

/-! ### FDC consensus-bitvote inflation (observer.py lines 348-361) -/

/-- The inner `for shift in range(8)` loop over one byte `b` of the reversed
remainder, at byte index `j`; `shifts` is the remaining shift list.  Writes go
through `List.set` (always in bounds when they happen, see
`C5_bitvote_inflation`). -/
def inflateShifts (n b j : Nat) : List Nat → List Bool →
    Except PyErr (List Bool)
  | [], arr => .ok arr
  | shift :: rest, arr =>
      let i : Int := (n : Int) - 1 - (j : Int) * 8 - (shift : Int)
      if i < 0 ∧ ((b >>> shift) &&& 1 == 1) then
        .error (.valueError "Invalid payload length.")
      else if 0 ≤ i then
        inflateShifts n b j rest (arr.set i.toNat ((b >>> shift) &&& 1 == 1))
      else
        inflateShifts n b j rest arr

/-- The outer `for j, byte in enumerate(reversed(votes))` loop. -/
def inflateBytes (n : Nat) : List Nat → Nat → List Bool →
    Except PyErr (List Bool)
  | [], _, arr => .ok arr
  | b :: bs, j, arr =>
      match inflateShifts n b j (List.range 8) arr with
      | .error e => .error e
      | .ok arr' => inflateBytes n bs (j + 1) arr'

/-- Consensus-bitvote inflation: `consensus_bitvote = [False] * n_requests`
then the double loop of observer.py lines 354-361, on the already-parsed
`(n_requests, votes)` pair. -/
def inflateBitvote (n_requests : Nat) (votes : List Nat) :
    Except PyErr (List Bool) :=
  inflateBytes n_requests votes.reverse 0 (List.replicate n_requests false)

/-- The remainder bytes read as a big-endian natural number (byte `j` of
`reversed(votes)` is the coefficient of `256^j`): the packed-bits value the
spec's "little-endian packed bit encoding" denotes. -/
def beNat (votes : List Nat) : Nat :=
  votes.foldl (fun a b => a * 256 + b) 0

/-! ### FDC validator (observer.py lines 318-453) -/

def fdcSubmit1Sel (cfg : EpochCfg) (round : VotingRound) (entity : Entity) :
    Option (WParsedPayload FdcSubmit1) :=
  (round.fdc.submit_1.getList entity.identity_address).extract_latest
    (round.voting_epoch.start_s cfg) (round.voting_epoch.end_s cfg)

def fdcSubmit2Sel (cfg : EpochCfg) (round : VotingRound) (entity : Entity) :
    Option (WParsedPayload FdcSubmit2) :=
  (round.fdc.submit_2.getList entity.identity_address).extract_latest
    (round.voting_epoch.next.start_s cfg)
    (round.voting_epoch.next.reveal_deadline cfg)

def fdcSubmitSigSel (cfg : EpochCfg) (round : VotingRound) (entity : Entity) :
    Option (WParsedPayload SubmitSignatures) :=
  (round.fdc.submit_signatures.getList entity.identity_address).extract_latest
    (round.voting_epoch.next.reveal_deadline cfg)
    (sigGrace cfg round.voting_epoch round.fdc.finalization)

def fdcSubmitSigDeadlineSel (cfg : EpochCfg) (round : VotingRound)
    (entity : Entity) : Option (WParsedPayload SubmitSignatures) :=
  (round.fdc.submit_signatures.getList entity.identity_address).extract_latest
    (round.voting_epoch.next.reveal_deadline cfg)
    (round.voting_epoch.next.end_s cfg)

/-- `sorted(fdc.consensus_bitvote.items(), key=lambda x: x[1],
reverse=True)[0][0]`: pick the key with the highest tally (stable descending
sort, ties resolved by dict insertion order), `IndexError` when the tally
dict is empty. -/
def pickConsensusKey (items : List (Bytes × Nat)) : Except PyErr Bytes :=
  match List.insertionSort (fun a b => b.2 ≤ a.2) items with
  | [] => .error .indexError
  | x :: _ => .ok x.1

/-- Modelled from the spec: `ByteParser.uint16` of the external library reads
the first two bytes big-endian and `drain` returns the rest (spec section
4.6 "parse as `(n_requests: uint16, remainder: bytes)`"). -/
def byteParserUint16 (bts : Bytes) : Except PyErr (Nat × Bytes) :=
  match bts with
  | b0 :: b1 :: rest => .ok (b0 * 256 + b1, rest)
  | _ => .error (.valueError "Invalid payload length.")

/-- `validate_fdc(round, entity, config)`.  A raised Python exception is an
`Except.error`; issues are only produced on the `.ok` path.  `recoverFn`
abstracts signature recovery as in `validate_ftso`. -/
def validate_fdc (cfg : EpochCfg) (network : Int) (round : VotingRound)
    (entity : Entity) (recoverFn : SSignature → Bytes → Address) :
    Except PyErr (List Message) :=
  let epoch := round.voting_epoch
  let finalization := round.fdc.finalization
  let submit_2 := fdcSubmit2Sel cfg round entity
  let submit_sig := fdcSubmitSigSel cfg round entity
  let submit_sig_deadline := fdcSubmitSigDeadlineSel cfg round entity
  match pickConsensusKey round.fdc.consensus_bitvote with
  | .error e => .error e
  | .ok key =>
  match byteParserUint16 key with
  | .error e => .error e
  | .ok (n_requests, votes) =>
  match inflateBitvote n_requests votes with
  | .error e => .error e
  | .ok consensus_bitvote =>
  let sorted_requests := round.fdc.requests.sorted
  if sorted_requests.length ≠ n_requests then .error .assertionError
  else
    let mb := fun lvl text => mkMessage network (some epoch) (some 200) lvl text
    let s2issues : List Message × Bool :=
      match submit_2 with
      | none => ([], true)
      | some s2 =>
          if s2.parsed_payload.payload.number_of_requests
              ≠ (sorted_requests.length : Int) then
            ([mb .ERROR ("submit 2 length didn\x27t match number of requests in round")],
             false)
          else
            let triples := (sorted_requests.zip
              (s2.parsed_payload.payload.bit_vector.zip consensus_bitvote)).enum
            let bad := triples.filter (fun p => p.2.2.2 && !p.2.2.1)
            (bad.map (fun p =>
               mb .ERROR ("submit2 didn\x27t confirm request that was part of consensus "
                 ++ p.2.1.attestation_type_rep ++ "/" ++ p.2.1.source_id_rep
                 ++ " at index " ++ toString (n_requests - 1 - p.1))),
             bad.isEmpty)
    let expected_signatures := s2issues.2
    .ok
      ((if submit_2.isNone then [mb .ERROR ("no submit2 transaction")] else [])
      ++ s2issues.1
      ++ (if submit_2.isSome ∧ expected_signatures = true
            ∧ submit_sig_deadline.isNone then
            [mb .CRITICAL ("no submit signatures transaction, causing reveal offence")]
          else [])
      ++ (if submit_2.isSome ∧ submit_sig_deadline.isSome
            ∧ submit_sig.isNone then
            [mb .ERROR ("no submit signatures transaction during grace period, causing loss of rewards")]
          else [])
      ++ (if submit_2.isNone ∧ submit_sig.isNone then
            [mb .ERROR ("no submit signatures transaction")]
          else [])
      ++ (match finalization, submit_sig with
          | some fin, some sg =>
              if recoverFn sg.parsed_payload.payload.signature fin.to_message
                  ≠ entity.signing_policy_address then
                [mb .ERROR ("submit signatures signature doesn\x27t match finalization")]
              else []
          | _, _ => []))

/-! ### Observer loop: policy rollover (observer.py lines 592-603) -/

/-- Python `==` between the int `start_voting_round_id` and the `VotingEpoch`
object, exactly as written at observer.py line 596
(`spb.signing_policy_initialized.start_voting_round_id == voting_epoch`).
`VotingEpoch` is an attrs-frozen class of the external epoch library that
compares equal only to other `VotingEpoch` instances (spec section 3: "Two
VotingEpochs with equal id compare equal"); comparing an `int` with such an
object falls through both `__eq__` methods to the default identity
comparison, which is `False`. -/
def pyEqIntVotingEpoch (n : Int) (v : VotingEpoch) : Bool := false

/-- The per-block policy-rollover step of `observer_loop` (observer.py lines
594-603), as the code is written: the swap is guarded by
`spb.signing_policy_initialized is not None and
spb.signing_policy_initialized.start_voting_round_id == voting_epoch`.
A failing `assert` inside `spb.build()` raises. -/
def rolloverStep (spb : SigningPolicyBuilder) (signing_policy : SigningPolicy)
    (voting_epoch : VotingEpoch) :
    Except PyErr (SigningPolicy × SigningPolicyBuilder) :=
  match spb.signing_policy_initialized with
  | none => .ok (signing_policy, spb)
  | some spi =>
      if pyEqIntVotingEpoch spi.start_voting_round_id voting_epoch then
        match spb.build with
        | none => .error .assertionError
        | some sp =>
            .ok (sp, SigningPolicyBuilder.empty.for_epoch sp.reward_epoch.next)
      else .ok (signing_policy, spb)

/-- Modelled from the spec: the same rollover step with the condition the
spec states (section 4.3: "if `spb.signing_policy_initialized` is set and its
`start_voting_round_id == voting_epoch.id`, atomically swap"). -/
def rolloverStepSpec (spb : SigningPolicyBuilder)
    (signing_policy : SigningPolicy) (voting_epoch : VotingEpoch) :
    Except PyErr (SigningPolicy × SigningPolicyBuilder) :=
  match spb.signing_policy_initialized with
  | none => .ok (signing_policy, spb)
  | some spi =>
      if spi.start_voting_round_id = voting_epoch.id then
        match spb.build with
        | none => .error .assertionError
        | some sp =>
            .ok (sp, SigningPolicyBuilder.empty.for_epoch sp.reward_epoch.next)
      else .ok (signing_policy, spb)

/-! ### Observer loop: per-transaction ingestion (observer.py lines 653-717)

The calldata parsers `parse_submit1_tx` / `parse_submit2_tx` /
`parse_submit_signature_tx` are external (py_flare_common) and are passed in
as fallible functions; the abstract error value stands for any exception
raised during the per-transaction decode.  `ve(...)` of the config's epoch
factory maps a voting round id to its `VotingEpoch`. -/

inductive SubmitMode where
  | submit1
  | submit2
  | submitSignatures
deriving DecidableEq

/-- Parser output: `parsed.ftso` / `parsed.fdc` optional sub-payloads. -/
structure ParsedSubmit (F D : Type) where
  ftso : Option (ParsedPayload F)
  fdc : Option (ParsedPayload D)
deriving DecidableEq

structure SubmissionParsers where
  parse_submit1_tx : Bytes → Except Unit (ParsedSubmit FtsoSubmit1 FdcSubmit1)
  parse_submit2_tx : Bytes → Except Unit (ParsedSubmit FtsoSubmit2 FdcSubmit2)
  parse_submit_signature_tx :
    Bytes → Except Unit (ParsedSubmit SubmitSignatures SubmitSignatures)

/-- The three watched `Submission` selectors from the configuration. -/
structure TargetSelectors where
  submitSignaturesSel : Bytes
  submit1Sel : Bytes
  submit2Sel : Bytes
deriving DecidableEq

/-- `target_function_signatures[sig]`: the dict is built inserting
`submitSignatures`, `submit1`, `submit2` in that order, so on duplicate
selector strings the later insertion wins; probing the latest first models
that. -/
def selectorMode (sel : TargetSelectors) (sig : Bytes) : Option SubmitMode :=
  if sig = sel.submit2Sel then some .submit2
  else if sig = sel.submit1Sel then some .submit1
  else if sig = sel.submitSignaturesSel then some .submitSignatures
  else none

/-- `vrm.get(v)` followed by a mutation of the returned round: insert the
fresh round if absent (at the end, in dict insertion order), then update the
stored round in place. -/
def VRMState.withRound (s : VRMState) (v : VotingEpoch)
    (f : VotingRound → VotingRound) : VRMState :=
  match pyGet s.rounds v with
  | some r => { s with rounds := pySet s.rounds v (f r) }
  | none => { s with rounds := s.rounds ++ [(v, f (VotingRound.fresh v))] }

/-- `vr.fdc.consensus_bitvote[msg] += 1` on the defaultdict(int). -/
def bumpBitvote (items : List (Bytes × Nat)) (msg : Bytes) :
    List (Bytes × Nat) :=
  match pyGet items msg with
  | some c => pySet items msg (c + 1)
  | none => items ++ [(msg, 1)]

/-- A record of one call into a calldata parser (used to observe that
transactions from unknown senders are never parsed). -/
structure ParseAttempt where
  mode : SubmitMode
  input : Bytes
deriving DecidableEq

/-- The body of `for tx in block_data["transactions"]` (observer.py lines
653-717) for a single transaction: selector lookup, omni-index sender lookup,
guarded parse and inserts; any parse failure is swallowed leaving the state
unchanged.  Also returns the list of parser invocations made. -/
def stepTx (sp : SigningPolicy) (P : SubmissionParsers) (sel : TargetSelectors)
    (s : VRMState) (wtx : WTxData) : VRMState × List ParseAttempt :=
  let called_function_sig := wtx.input.take 4
  let inp := wtx.input.drop 4
  match pyGet sp.entity_mapper.by_omni wtx.from_address with
  | none => (s, [])
  | some entity =>
      match selectorMode sel called_function_sig with
      | none => (s, [])
      | some SubmitMode.submit1 =>
          (match P.parse_submit1_tx inp with
           | .error _ => (s, [⟨.submit1, inp⟩])
           | .ok parsed =>
               let s1 := match parsed.ftso with
                 | none => s
                 | some pf =>
                     s.withRound ⟨pf.voting_round_id⟩ (fun vr =>
                       { vr with ftso := vr.ftso.insert_submit_1 entity pf wtx })
               let s2 := match parsed.fdc with
                 | none => s1
                 | some pf =>
                     s1.withRound ⟨pf.voting_round_id⟩ (fun vr =>
                       { vr with fdc :=
                         { vr.fdc with toVotingRoundProtocol :=
                           vr.fdc.toVotingRoundProtocol.insert_submit_1 entity pf wtx } })
               (s2, [⟨.submit1, inp⟩]))
      | some SubmitMode.submit2 =>
          (match P.parse_submit2_tx inp with
           | .error _ => (s, [⟨.submit2, inp⟩])
           | .ok parsed =>
               let s1 := match parsed.ftso with
                 | none => s
                 | some pf =>
                     s.withRound ⟨pf.voting_round_id⟩ (fun vr =>
                       { vr with ftso := vr.ftso.insert_submit_2 entity pf wtx })
               let s2 := match parsed.fdc with
                 | none => s1
                 | some pf =>
                     s1.withRound ⟨pf.voting_round_id⟩ (fun vr =>
                       { vr with fdc :=
                         { vr.fdc with toVotingRoundProtocol :=
                           vr.fdc.toVotingRoundProtocol.insert_submit_2 entity pf wtx } })
               (s2, [⟨.submit2, inp⟩]))
      | some SubmitMode.submitSignatures =>
          (match P.parse_submit_signature_tx inp with
           | .error _ => (s, [⟨.submitSignatures, inp⟩])
           | .ok parsed =>
               let s1 := match parsed.ftso with
                 | none => s
                 | some pf =>
                     s.withRound ⟨pf.voting_round_id⟩ (fun vr =>
                       { vr with ftso :=
                         vr.ftso.insert_submit_signatures entity pf wtx })
               let s2 := match parsed.fdc with
                 | none => s1
                 | some pf =>
                     let sA := s1.withRound ⟨pf.voting_round_id⟩ (fun vr =>
                       { vr with fdc :=
                         { vr.fdc with toVotingRoundProtocol :=
                           (vr.fdc.toVotingRoundProtocol.insert_submit_signatures
                             entity pf wtx) } })
                     sA.withRound ⟨pf.voting_round_id⟩ (fun vr =>
                       { vr with fdc :=
                         { vr.fdc with consensus_bitvote :=
                           (bumpBitvote vr.fdc.consensus_bitvote
                             pf.payload.unsigned_message) } })
               (s2, [⟨.submitSignatures, inp⟩]))

/-- The whole per-block transaction loop: fold `stepTx` over the block's
transactions, concatenating the parser-invocation records. -/
def processTxs (sp : SigningPolicy) (P : SubmissionParsers)
    (sel : TargetSelectors) : VRMState → List WTxData →
    VRMState × List ParseAttempt
  | s, [] => (s, [])
  | s, tx :: rest =>
      match stepTx sp P sel s tx with
      | (s', a) =>
          match processTxs sp P sel s' rest with
          | (s'', as') => (s'', a ++ as')

/-- The parse of transaction input `inp` in mode `mode` raises. -/
def parseFails (P : SubmissionParsers) (mode : SubmitMode) (inp : Bytes) :
    Prop :=
  match mode with
  | .submit1 => ∃ e, P.parse_submit1_tx inp = .error e
  | .submit2 => ∃ e, P.parse_submit2_tx inp = .error e
  | .submitSignatures => ∃ e, P.parse_submit_signature_tx inp = .error e

/-- First-occurrence dedup, following the spec's words ("dedup key = `data`
bytes, first occurrence wins under the order"): keep an element iff no
earlier element of the list has the same `data` value. -/
def firstOccur : List AttestationRequest → List AttestationRequest
  | [] => []
  | ar :: rest =>
      ar :: firstOccur (rest.filter (fun x => decide (x.data ≠ ar.data)))
termination_by l => l.length
decreasing_by
  simp only [List.length_cons]
  exact Nat.lt_succ_of_le (List.length_filter_le _ _)

/-- The rounds-map stores each `VotingRound` under its own epoch (true of
every state reachable from a constructed `VotingRoundManager`). -/
def RoundsCoherent (s : VRMState) : Prop :=
  ∀ p ∈ s.rounds, (p.2 : VotingRound).voting_epoch = p.1

/-- Little-endian byte list value: head byte is the coefficient of `256^0`.
`beNat votes = leNat votes.reverse`. -/
def leNat : List Nat → Nat
  | [] => 0
  | b :: bs => b + 256 * leNat bs

/-! ## Sample inputs used by witnesses -/

/-- A fully-populated builder for reward epoch 7 whose
`signing_policy_initialized.start_voting_round_id` is 5 (voter listed by its
signing-policy address 21). -/
def C1_spb : SigningPolicyBuilder where
  reward_epoch := some ⟨7⟩
  random_acquisation_started := some ⟨7⟩
  vote_power_block_selected := some ⟨7, 100⟩
  voter_registered := [⟨7, 11, 21, 31, 41, "pk", 9⟩]
  voter_registration_info := [⟨7, 11, 51, 1, 2, 3, ["n1"], [4]⟩]
  voter_removed := []
  signing_policy_initialized := some ⟨7, 5, 10, 42, "spb", [21], [3]⟩

/-- A stand-in current signing policy (reward epoch 6). -/
def C1_sp0 : SigningPolicy where
  reward_epoch := ⟨6⟩
  vote_power_block := 0
  start_voting_round := 0
  threshold := 0
  seed := 0
  signing_policy_bytes := ""
  entities := []
  entity_mapper := EntityMapper.empty

/-- The signing policy `C1_spb.build()` produces. -/
def C1_builtSP : SigningPolicy := (C1_spb.build).getD C1_sp0

def wCfg : EpochCfg := ⟨0, 90⟩

def w2_s : VRMState :=
  ⟨0, [(⟨1⟩, VotingRound.fresh ⟨1⟩), (⟨9⟩, VotingRound.fresh ⟨9⟩)]⟩

def w3_ops : List VRMOp :=
  [.get ⟨5⟩, .finalize 1000, .get ⟨7⟩, .finalize 2000]

def w6_tx (ts : Int) : WTxData := ⟨0, none, [], 0, ts, 0, 1, 0⟩

def w6_pp (ts : Int) : WParsedPayload FtsoSubmit1 := ⟨⟨0, ⟨"h"⟩⟩, w6_tx ts⟩

def w6_list : WParsedPayloadList FtsoSubmit1 :=
  ⟨[w6_pp 10, w6_pp 50, w6_pp 200]⟩

def w7_ar (blk li : Int) (d : Bytes) : AttestationRequest :=
  ⟨blk, li, d, ⟨0⟩, "t", "s"⟩

def w7_mapper : AttestationRequestMapper :=
  ⟨[w7_ar 2 0 [1], w7_ar 1 0 [1], w7_ar 1 1 [2]]⟩

def w8_entity : Entity := ⟨1, 2, 3, 4, 5, "pk", [], 0, 0, 0, 0, 0⟩

def w8_round : VotingRound where
  voting_epoch := ⟨0⟩
  ftso :=
    { submit_1 := ⟨[(1, ⟨[⟨⟨0, ⟨"ch"⟩⟩, w6_tx 10⟩]⟩)]⟩
      submit_2 := ⟨[]⟩
      submit_signatures := ⟨[]⟩
      finalization := none }
  fdc := FdcVotingRoundProtocol.empty

def w8_reparse : Bytes → Int × Bytes := fun _ => (0, [])

def w8_ch : Address → Int → Int → Bytes → String := fun _ _ _ _ => "x"

def w8_rc : SSignature → Bytes → Address := fun _ _ => 0

def w9_sp : SigningPolicy :=
  { C1_sp0 with entity_mapper :=
      { EntityMapper.empty with by_omni := [(1, w8_entity)] } }

def w9_P : SubmissionParsers :=
  ⟨fun _ => .error (), fun _ => .error (), fun _ => .error ()⟩

def w9_sel : TargetSelectors := ⟨[9, 9, 9, 9], [1, 1, 1, 1], [2, 2, 2, 2]⟩

def w9_tx : WTxData := ⟨0, none, [1, 1, 1, 1, 77], 0, 0, 0, 1, 0⟩

def w10_round : VotingRound := VotingRound.fresh ⟨0⟩

/-- MARKER: new definitions go above this line. -/
def defsEndMarker : Unit := ()

/-! ## Theorems -/

/-- The in-range predicate of `extract_latest`. -/
theorem extract_foldl_spec {T : Type} (rstart rstop : Int) :
    ∀ (l : List (WParsedPayload T)) (acc : Option (WParsedPayload T)),
      (l.foldl (extractStep rstart rstop) acc = none ↔
        acc = none ∧ ∀ w ∈ l,
          ¬(rstart ≤ w.wtx_data.timestamp ∧ w.wtx_data.timestamp < rstop))
      ∧ ∀ w, l.foldl (extractStep rstart rstop) acc = some w →
          ((acc = some w ∨ (w ∈ l ∧ rstart ≤ w.wtx_data.timestamp
              ∧ w.wtx_data.timestamp < rstop))
           ∧ (∀ w' ∈ l, rstart ≤ w'.wtx_data.timestamp
                ∧ w'.wtx_data.timestamp < rstop →
                w'.wtx_data.timestamp ≤ w.wtx_data.timestamp)
           ∧ (∀ v, acc = some v →
                v.wtx_data.timestamp ≤ w.wtx_data.timestamp)) := by
  intro l
  induction l with
  | nil =>
      intro acc
      simp only [List.foldl_nil]
      refine ⟨by simp, ?_⟩
      intro w hw
      refine ⟨Or.inl hw, by simp, ?_⟩
      intro v hv
      rw [hw] at hv
      injection hv with h
      rw [h]
  | cons a l ih =>
      intro acc
      rw [List.foldl_cons]
      by_cases haR : rstart ≤ a.wtx_data.timestamp
          ∧ a.wtx_data.timestamp < rstop
      · -- a is in range
        rcases acc with _ | cur
        · -- fresh accumulator becomes `some a`
          have hstep : extractStep rstart rstop none a = some a := by
            unfold extractStep
            rw [if_neg (not_not_intro haR)]
          rw [hstep]
          refine ⟨?_, ?_⟩
          · rw [(ih (some a)).1]
            simp only [reduceCtorEq, false_and, false_iff, not_and]
            intro h hall
            exact hall a (List.mem_cons_self a l) haR.1 haR.2
          · intro w hw
            obtain ⟨h1, h2, h3⟩ := (ih (some a)).2 w hw
            refine ⟨?_, ?_, ?_⟩
            · rcases h1 with h1 | ⟨hm, hr⟩
              · obtain rfl : a = w := by injection h1
                exact Or.inr ⟨List.mem_cons_self a l, haR⟩
              · exact Or.inr ⟨List.mem_cons_of_mem _ hm, hr⟩
            · intro w' hw' hr'
              rcases List.mem_cons.mp hw' with rfl | hw'
              · exact h3 w' rfl
              · exact h2 w' hw' hr'
            · intro v hv
              cases hv
        · have hstep : extractStep rstart rstop (some cur) a =
              if cur.wtx_data.timestamp < a.wtx_data.timestamp then some a
              else some cur := by
            unfold extractStep
            rw [if_neg (not_not_intro haR)]
          by_cases hlt : cur.wtx_data.timestamp < a.wtx_data.timestamp
          · -- replace with `a`
            rw [hstep, if_pos hlt]
            refine ⟨?_, ?_⟩
            · rw [(ih (some a)).1]
              simp only [reduceCtorEq, false_and, false_iff, not_and]
            · intro w hw
              obtain ⟨h1, h2, h3⟩ := (ih (some a)).2 w hw
              refine ⟨?_, ?_, ?_⟩
              · rcases h1 with h1 | ⟨hm, hr⟩
                · obtain rfl : a = w := by injection h1
                  exact Or.inr ⟨List.mem_cons_self a l, haR⟩
                · exact Or.inr ⟨List.mem_cons_of_mem _ hm, hr⟩
              · intro w' hw' hr'
                rcases List.mem_cons.mp hw' with rfl | hw'
                · exact h3 w' rfl
                · exact h2 w' hw' hr'
              · intro v hv
                injection hv with hv'
                rw [← hv']
                exact le_trans (le_of_lt hlt) (h3 a rfl)
          · -- keep `cur`
            rw [hstep, if_neg hlt]
            have hle : a.wtx_data.timestamp ≤ cur.wtx_data.timestamp :=
              le_of_not_lt hlt
            refine ⟨?_, ?_⟩
            · rw [(ih (some cur)).1]
              simp
            · intro w hw
              obtain ⟨h1, h2, h3⟩ := (ih (some cur)).2 w hw
              refine ⟨?_, ?_, ?_⟩
              · rcases h1 with h1 | ⟨hm, hr⟩
                · exact Or.inl h1
                · exact Or.inr ⟨List.mem_cons_of_mem _ hm, hr⟩
              · intro w' hw' hr'
                rcases List.mem_cons.mp hw' with rfl | hw'
                · exact le_trans hle (h3 cur rfl)
                · exact h2 w' hw' hr'
              · intro v hv
                injection hv with hv'
                rw [← hv']
                exact h3 cur rfl
      · -- a is out of range: the accumulator is unchanged
        have hstep : extractStep rstart rstop acc a = acc := by
          unfold extractStep
          rw [if_pos haR]
        rw [hstep]
        refine ⟨?_, ?_⟩
        · rw [(ih acc).1]
          constructor
          · rintro ⟨h1, h2⟩
            refine ⟨h1, ?_⟩
            intro w hw
            rcases List.mem_cons.mp hw with rfl | hw
            · exact haR
            · exact h2 w hw
          · rintro ⟨h1, h2⟩
            exact ⟨h1, fun w hw => h2 w (List.mem_cons_of_mem _ hw)⟩
        · intro w hw
          obtain ⟨h1, h2, h3⟩ := (ih acc).2 w hw
          refine ⟨?_, ?_, h3⟩
          · rcases h1 with h1 | ⟨hm, hr⟩
            · exact Or.inl h1
            · exact Or.inr ⟨List.mem_cons_of_mem _ hm, hr⟩
          · intro w' hw' hr'
            rcases List.mem_cons.mp hw' with rfl | hw'
            · exact absurd hr' haR
            · exact h2 w' hw' hr'

/-- C6: for every `WParsedPayloadList` and every half-open range
`[start, stop)`, `extract_latest` returns `none` exactly when no element's
timestamp lies in the range, and otherwise returns an element of the list
whose timestamp lies in `[start, stop)` and is maximal among all elements
whose timestamps lie in that range. -/
theorem C6_extract_latest {T : Type} (l : WParsedPayloadList T)
    (rstart rstop : Int) :
    (l.extract_latest rstart rstop = none ↔
      ∀ w ∈ l.agg, ¬(rstart ≤ w.wtx_data.timestamp
        ∧ w.wtx_data.timestamp < rstop))
    ∧ ∀ w, l.extract_latest rstart rstop = some w →
        w ∈ l.agg ∧ (rstart ≤ w.wtx_data.timestamp
          ∧ w.wtx_data.timestamp < rstop)
        ∧ ∀ w' ∈ l.agg, rstart ≤ w'.wtx_data.timestamp
            ∧ w'.wtx_data.timestamp < rstop →
            w'.wtx_data.timestamp ≤ w.wtx_data.timestamp := by
  have h := extract_foldl_spec rstart rstop l.agg none
  unfold WParsedPayloadList.extract_latest
  refine ⟨?_, ?_⟩
  · rw [h.1]; simp
  · intro w hw
    obtain ⟨h1, h2, _⟩ := h.2 w hw
    rcases h1 with h1 | ⟨hm, hr⟩
    · cases h1
    · exact ⟨hm, hr, h2⟩

/-- Unfolding equation for `firstOccur` on a cons cell. -/
theorem firstOccur_cons (ar : AttestationRequest)
    (rest : List AttestationRequest) :
    firstOccur (ar :: rest)
      = ar :: firstOccur (rest.filter (fun x => decide (x.data ≠ ar.data))) := by
  simp only [firstOccur]

/-- The seen-set dedup loop equals first-occurrence filtering: entries whose
data is already in `seen` are as if pre-filtered away. -/
theorem dedupByData_eq_firstOccur :
    ∀ (l : List AttestationRequest) (seen : List Bytes),
      dedupByData l seen =
        firstOccur (l.filter (fun x => decide (x.data ∉ seen))) := by
  intro l
  induction l with
  | nil => intro seen; simp [dedupByData, firstOccur]
  | cons ar rest ih =>
      intro seen
      have hred : dedupByData (ar :: rest) seen =
          if ar.data ∈ seen then dedupByData rest seen
          else ar :: dedupByData rest (ar.data :: seen) := rfl
      by_cases hm : ar.data ∈ seen
      · rw [hred, if_pos hm, ih seen]
        congr 1
        rw [List.filter_cons, if_neg (by simpa using hm)]
      · rw [hred, if_neg hm, ih (ar.data :: seen)]
        rw [List.filter_cons, if_pos (by simpa using hm)]
        rw [firstOccur_cons]
        congr 1
        rw [List.filter_filter]
        congr 1
        apply List.filter_congr
        intro x _
        by_cases h1 : x.data = ar.data <;> by_cases h2 : x.data ∈ seen <;>
          simp [List.mem_cons, h1, h2]

/-- Elements kept by `firstOccur` come from the input list. -/
theorem firstOccur_mem :
    ∀ (l : List AttestationRequest) (a : AttestationRequest),
      a ∈ firstOccur l → a ∈ l := by
  intro l
  induction l using firstOccur.induct with
  | case1 => intro a ha; simp [firstOccur] at ha
  | case2 ar rest ih =>
      intro a ha
      rw [firstOccur_cons] at ha
      rcases List.mem_cons.mp ha with rfl | ha
      · exact List.mem_cons_self _ _
      · exact List.mem_cons_of_mem _ (List.mem_of_mem_filter (ih a ha))

/-- `firstOccur` keeps at most one element per data value. -/
theorem firstOccur_pairwise :
    ∀ l : List AttestationRequest,
      (firstOccur l).Pairwise (fun a b => a.data ≠ b.data) := by
  intro l
  induction l using firstOccur.induct with
  | case1 => simp [firstOccur]
  | case2 ar rest ih =>
      rw [firstOccur_cons]
      refine List.Pairwise.cons ?_ ih
      intro b hb
      have hb' := firstOccur_mem _ _ hb
      have hne : b.data ≠ ar.data := by simpa using List.of_mem_filter hb'
      intro hd
      exact hne hd.symm

/-- Every data value of the input survives into `firstOccur`. -/
theorem firstOccur_complete :
    ∀ (l : List AttestationRequest) (a : AttestationRequest), a ∈ l →
      ∃ b ∈ firstOccur l, b.data = a.data := by
  intro l
  induction l using firstOccur.induct with
  | case1 => intro a ha; cases ha
  | case2 ar rest ih =>
      intro a ha
      rw [firstOccur_cons]
      rcases List.mem_cons.mp ha with rfl | ha
      · exact ⟨a, List.mem_cons_self _ _, rfl⟩
      · by_cases hd : a.data = ar.data
        · exact ⟨ar, List.mem_cons_self _ _, hd.symm⟩
        · obtain ⟨b, hb, hbd⟩ := ih a (List.mem_filter.mpr ⟨ha, by simpa using hd⟩)
          exact ⟨b, List.mem_cons_of_mem _ hb, hbd⟩

/-- C7: `AttestationRequestMapper.sorted()` is the reversal of the
first-occurrence (by `(block, log_index)`-ascending stable order) dedup on
`data`; consequently its elements have pairwise-distinct data, come from the
aggregated requests, and cover every data value that was aggregated. -/
theorem C7_requests_sorted (m : AttestationRequestMapper) :
    m.sorted = (firstOccur (List.insertionSort arKeyLe m.agg)).reverse
    ∧ m.sorted.Pairwise (fun a b => a.data ≠ b.data)
    ∧ (∀ a ∈ m.sorted, a ∈ m.agg)
    ∧ (∀ a ∈ m.agg, ∃ b ∈ m.sorted, b.data = a.data) := by
  have hmain : m.sorted
      = (firstOccur (List.insertionSort arKeyLe m.agg)).reverse := by
    unfold AttestationRequestMapper.sorted
    rw [dedupByData_eq_firstOccur]
    congr 2
    apply List.filter_eq_self.mpr
    intro a _
    simp
  refine ⟨hmain, ?_, ?_, ?_⟩
  · rw [hmain, List.pairwise_reverse]
    exact (firstOccur_pairwise _).imp (fun h => h.symm)
  · intro a ha
    rw [hmain, List.mem_reverse] at ha
    have := firstOccur_mem _ _ ha
    exact (List.perm_insertionSort arKeyLe m.agg).mem_iff.mp this
  · intro a ha
    have ha' : a ∈ List.insertionSort arKeyLe m.agg :=
      (List.perm_insertionSort arKeyLe m.agg).mem_iff.mpr ha
    obtain ⟨b, hb, hbd⟩ := firstOccur_complete _ a ha'
    exact ⟨b, by rw [hmain, List.mem_reverse]; exact hb, hbd⟩

/-- Unfolding the finalize loop over one key. -/
theorem finalizeLoop_cons (cfg : EpochCfg) (ts : Int) (k : VotingEpoch)
    (r : VotingRound) (rest : List (VotingEpoch × VotingRound)) (fin : Int)
    (rmap : List (VotingEpoch × VotingRound)) (out : List VotingRound) :
    finalizeLoop cfg ts ((k, r) :: rest) fin rmap out =
      if k.id ≤ fin then finalizeLoop cfg ts rest fin (pyPop rmap k) out
      else if (k.next.end_s cfg) < ts then
        finalizeLoop cfg ts rest (max fin k.id) (pyPop rmap k) (out ++ [r])
      else finalizeLoop cfg ts rest fin rmap out := rfl

/-- `finalized` only grows along the finalize loop. -/
theorem finalizeLoop_fin_mono (cfg : EpochCfg) (ts : Int) :
    ∀ (keys : List (VotingEpoch × VotingRound)) (fin : Int)
      (rmap : List (VotingEpoch × VotingRound)) (out : List VotingRound),
      fin ≤ (finalizeLoop cfg ts keys fin rmap out).1 := by
  intro keys
  induction keys with
  | nil => intro fin rmap out; exact le_refl _
  | cons kr rest ih =>
      intro fin rmap out
      obtain ⟨k, r⟩ := kr
      rw [finalizeLoop_cons]
      by_cases h1 : k.id ≤ fin
      · rw [if_pos h1]; exact ih fin _ out
      · rw [if_neg h1]
        by_cases h2 : (k.next.end_s cfg) < ts
        · rw [if_pos h2]
          exact le_trans (le_max_left _ _) (ih (max fin k.id) _ _)
        · rw [if_neg h2]; exact ih fin rmap out

/-- Every round the loop adds to the output has an epoch id strictly above
the entry `finalized` and at most the exit `finalized` (given that stored
rounds carry their own key as epoch). -/
theorem finalizeLoop_out_bounds (cfg : EpochCfg) (ts : Int) :
    ∀ (keys : List (VotingEpoch × VotingRound)) (fin : Int)
      (rmap : List (VotingEpoch × VotingRound)) (out : List VotingRound),
      (∀ p ∈ keys, (p.2 : VotingRound).voting_epoch = p.1) →
      ∀ r' ∈ (finalizeLoop cfg ts keys fin rmap out).2.2,
        r' ∈ out ∨ (fin < r'.voting_epoch.id ∧
          r'.voting_epoch.id ≤ (finalizeLoop cfg ts keys fin rmap out).1) := by
  intro keys
  induction keys with
  | nil => intro fin rmap out _ r' hr'; exact Or.inl hr'
  | cons kr rest ih =>
      intro fin rmap out hcoh r' hr'
      obtain ⟨k, r⟩ := kr
      have hk : r.voting_epoch = k := hcoh (k, r) (List.mem_cons_self _ _)
      have hcoh' : ∀ p ∈ rest, (p.2 : VotingRound).voting_epoch = p.1 :=
        fun p hp => hcoh p (List.mem_cons_of_mem _ hp)
      rw [finalizeLoop_cons] at hr' ⊢
      by_cases h1 : k.id ≤ fin
      · rw [if_pos h1] at hr' ⊢
        exact ih fin _ out hcoh' r' hr'
      · rw [if_neg h1] at hr' ⊢
        by_cases h2 : (k.next.end_s cfg) < ts
        · rw [if_pos h2] at hr' ⊢
          rcases ih (max fin k.id) _ _ hcoh' r' hr' with hin | ⟨hlo, hhi⟩
          · rcases List.mem_append.mp hin with hin | hin
            · exact Or.inl hin
            · have hrr : r' = r := by simpa using hin
              subst hrr
              rw [hk]
              refine Or.inr ⟨lt_of_not_le h1, ?_⟩
              exact le_trans (le_max_right fin k.id)
                (finalizeLoop_fin_mono cfg ts rest (max fin k.id) _ _)
          · exact Or.inr ⟨lt_of_le_of_lt (le_max_left fin k.id) hlo, hhi⟩
        · rw [if_neg h2] at hr' ⊢
          exact ih fin rmap out hcoh' r' hr'

/-- Whatever remains in the rounds dict after the loop was there before. -/
theorem finalizeLoop_rmap_sub (cfg : EpochCfg) (ts : Int) :
    ∀ (keys : List (VotingEpoch × VotingRound)) (fin : Int)
      (rmap : List (VotingEpoch × VotingRound)) (out : List VotingRound),
      ∀ p ∈ (finalizeLoop cfg ts keys fin rmap out).2.1, p ∈ rmap := by
  intro keys
  induction keys with
  | nil => intro fin rmap out p hp; exact hp
  | cons kr rest ih =>
      intro fin rmap out p hp
      obtain ⟨k, r⟩ := kr
      rw [finalizeLoop_cons] at hp
      by_cases h1 : k.id ≤ fin
      · rw [if_pos h1] at hp
        exact List.mem_of_mem_eraseP (ih fin _ out p hp)
      · rw [if_neg h1] at hp
        by_cases h2 : (k.next.end_s cfg) < ts
        · rw [if_pos h2] at hp
          exact List.mem_of_mem_eraseP (ih (max fin k.id) _ _ p hp)
        · rw [if_neg h2] at hp
          exact ih fin rmap out p hp

/-- Removing a key from a dict with distinct keys: the survivors were present
before and none of them carries the removed key. -/
theorem mem_pyPop_ne {V : Type} [DecidableEq VotingEpoch] :
    ∀ (rmap : List (VotingEpoch × V)) (k : VotingEpoch) (p : VotingEpoch × V),
      (rmap.map Prod.fst).Nodup → p ∈ pyPop rmap k → p ∈ rmap ∧ p.1 ≠ k := by
  intro rmap
  induction rmap with
  | nil => intro k p _ hp; cases hp
  | cons q rmap' ih =>
      intro k p hnd hp
      have hnd' : (rmap'.map Prod.fst).Nodup := (List.nodup_cons.mp hnd).2
      have hq : q.1 ∉ rmap'.map Prod.fst := (List.nodup_cons.mp hnd).1
      unfold pyPop at hp
      rw [List.eraseP_cons] at hp
      by_cases hqk : q.1 = k
      · rw [decide_eq_true hqk, cond_true] at hp
        refine ⟨List.mem_cons_of_mem _ hp, ?_⟩
        intro hpk
        apply hq
        rw [hqk, ← hpk]
        exact List.mem_map_of_mem Prod.fst hp
      · rw [decide_eq_false hqk, cond_false] at hp
        rcases List.mem_cons.mp hp with rfl | hp
        · exact ⟨List.mem_cons_self _ _, hqk⟩
        · obtain ⟨h1, h2⟩ := ih k p hnd' hp
          exact ⟨List.mem_cons_of_mem _ h1, h2⟩

/-- `pyPop` preserves distinctness of the keys. -/
theorem pyPop_keys_nodup {V : Type} (rmap : List (VotingEpoch × V))
    (k : VotingEpoch) (hnd : (rmap.map Prod.fst).Nodup) :
    ((pyPop rmap k).map Prod.fst).Nodup :=
  hnd.sublist (List.Sublist.map Prod.fst (List.eraseP_sublist rmap))

/-- Invariant of the finalize loop: with a positive epoch duration and
distinct keys, every entry still present when the loop ends either is still
waiting in the unprocessed key list or already satisfies "not yet completed
and id above the current finalized"; at the end this pins every surviving
key strictly above the final `finalized`. -/
theorem finalizeLoop_keys_above (cfg : EpochCfg) (ts : Int)
    (hdur : 0 < cfg.dur) :
    ∀ (keys : List (VotingEpoch × VotingRound)) (fin : Int)
      (rmap : List (VotingEpoch × VotingRound)) (out : List VotingRound),
      (rmap.map Prod.fst).Nodup →
      (∀ p ∈ rmap, p.1 ∈ keys.map Prod.fst ∨
        (fin < p.1.id ∧ ¬((p.1.next.end_s cfg) < ts))) →
      ∀ p ∈ (finalizeLoop cfg ts keys fin rmap out).2.1,
        (finalizeLoop cfg ts keys fin rmap out).1 < p.1.id := by
  intro keys
  induction keys with
  | nil =>
      intro fin rmap out _ hinv p hp
      rcases hinv p hp with h | ⟨h, _⟩
      · simp at h
      · exact h
  | cons kr rest ih =>
      intro fin rmap out hnd hinv p hp
      obtain ⟨k, r⟩ := kr
      rw [finalizeLoop_cons] at hp ⊢
      by_cases h1 : k.id ≤ fin
      · rw [if_pos h1] at hp ⊢
        refine ih fin _ out (pyPop_keys_nodup rmap k hnd) ?_ p hp
        intro q hq
        obtain ⟨hq1, hq2⟩ := mem_pyPop_ne rmap k q hnd hq
        rcases hinv q hq1 with h | h
        · rw [List.map_cons] at h
          rcases List.mem_cons.mp h with h' | h'
          · exact absurd h' hq2
          · exact Or.inl h'
        · exact Or.inr h
      · rw [if_neg h1] at hp ⊢
        by_cases h2 : (k.next.end_s cfg) < ts
        · rw [if_pos h2] at hp ⊢
          refine ih (max fin k.id) _ _ (pyPop_keys_nodup rmap k hnd) ?_ p hp
          intro q hq
          obtain ⟨hq1, hq2⟩ := mem_pyPop_ne rmap k q hnd hq
          rcases hinv q hq1 with h | ⟨hfin, hcompl⟩
          · rw [List.map_cons] at h
            rcases List.mem_cons.mp h with h' | h'
            · exact absurd h' hq2
            · exact Or.inl h'
          · refine Or.inr ⟨?_, hcompl⟩
            have hkq : k.id < q.1.id := by
              have hts : (k.next.end_s cfg) < (q.1.next.end_s cfg) :=
                lt_of_lt_of_le h2 (le_of_not_lt hcompl)
              unfold VotingEpoch.end_s VotingEpoch.next at hts
              have hmul : (k.id + 1 + 1) * cfg.dur < (q.1.id + 1 + 1) * cfg.dur :=
                lt_of_add_lt_add_left hts
              have := lt_of_mul_lt_mul_right hmul (le_of_lt hdur)
              omega
            exact max_lt hfin hkq
        · rw [if_neg h2] at hp ⊢
          refine ih fin rmap out hnd ?_ p hp
          intro q hq
          rcases hinv q hq with h | h
          · rw [List.map_cons] at h
            rcases List.mem_cons.mp h with h' | h'
            · refine Or.inr ?_
              rw [h']
              exact ⟨lt_of_not_le h1, h2⟩
            · exact Or.inl h'
          · exact Or.inr h

/-- Unfolding `VRMState.finalize` into its loop components. -/
theorem VRMState.finalize_eq (cfg : EpochCfg) (s : VRMState) (ts : Int) :
    s.finalize cfg ts =
      ((finalizeLoop cfg ts s.rounds s.finalized s.rounds []).2.2,
       ⟨(finalizeLoop cfg ts s.rounds s.finalized s.rounds []).1,
        (finalizeLoop cfg ts s.rounds s.finalized s.rounds []).2.1⟩) := rfl

/-- Unfolding `runOp` on a `get`. -/
theorem runOp_get_eq (cfg : EpochCfg) (s : VRMState) (v : VotingEpoch) :
    runOp cfg s (.get v) = ((s.get v).2, []) := rfl

/-- Unfolding `runOp` on a `finalize`. -/
theorem runOp_finalize_eq (cfg : EpochCfg) (s : VRMState) (ts : Int) :
    runOp cfg s (.finalize ts) =
      ((s.finalize cfg ts).2, (s.finalize cfg ts).1) := rfl

/-- Unfolding `runTrace` on a cons. -/
theorem runTrace_cons_eq (cfg : EpochCfg) (s : VRMState) (op : VRMOp)
    (rest : List VRMOp) :
    runTrace cfg s (op :: rest) =
      ((runTrace cfg (runOp cfg s op).1 rest).1,
       (runOp cfg s op).2 :: (runTrace cfg (runOp cfg s op).1 rest).2) := rfl

/-- A single operation never decreases `finalized`. -/
theorem runOp_fin_mono (cfg : EpochCfg) (s : VRMState) (op : VRMOp) :
    s.finalized ≤ (runOp cfg s op).1.finalized := by
  cases op with
  | get v =>
      show s.finalized ≤ (s.get v).2.finalized
      unfold VRMState.get
      cases pyGet s.rounds v <;> exact le_refl _
  | finalize ts =>
      rw [runOp_finalize_eq, VRMState.finalize_eq]
      exact finalizeLoop_fin_mono cfg ts s.rounds s.finalized s.rounds []

/-- Round ids output by one operation sit in `(finalized before, finalized
after]`. -/
theorem runOp_out_bounds (cfg : EpochCfg) (s : VRMState) (op : VRMOp)
    (hcoh : RoundsCoherent s) :
    ∀ r' ∈ (runOp cfg s op).2,
      s.finalized < r'.voting_epoch.id ∧
      r'.voting_epoch.id ≤ (runOp cfg s op).1.finalized := by
  cases op with
  | get v => intro r' hr'; cases hr'
  | finalize ts =>
      intro r' hr'
      rw [runOp_finalize_eq, VRMState.finalize_eq] at hr' ⊢
      rcases finalizeLoop_out_bounds cfg ts s.rounds s.finalized s.rounds []
        hcoh r' hr' with h | h
      · cases h
      · exact h

/-- Operations preserve coherence of the rounds map. -/
theorem runOp_coherent (cfg : EpochCfg) (s : VRMState) (op : VRMOp)
    (hcoh : RoundsCoherent s) : RoundsCoherent (runOp cfg s op).1 := by
  cases op with
  | get v =>
      show RoundsCoherent (s.get v).2
      unfold VRMState.get
      cases pyGet s.rounds v with
      | some r => exact hcoh
      | none =>
          intro p hp
          rcases List.mem_append.mp hp with hp | hp
          · exact hcoh p hp
          · have : p = (v, VotingRound.fresh v) := by simpa using hp
            rw [this]
            rfl
  | finalize ts =>
      rw [runOp_finalize_eq, VRMState.finalize_eq]
      intro p hp
      exact hcoh p
        (finalizeLoop_rmap_sub cfg ts s.rounds s.finalized s.rounds [] p hp)

/-- `finalized` never decreases along a trace. -/
theorem runTrace_fin_mono (cfg : EpochCfg) :
    ∀ (ops : List VRMOp) (s : VRMState),
      s.finalized ≤ (runTrace cfg s ops).1.finalized := by
  intro ops
  induction ops with
  | nil => intro s; exact le_refl _
  | cons op rest ih =>
      intro s
      rw [runTrace_cons_eq]
      exact le_trans (runOp_fin_mono cfg s op) (ih (runOp cfg s op).1)

/-- Coherence is preserved along a trace. -/
theorem runTrace_coherent (cfg : EpochCfg) :
    ∀ (ops : List VRMOp) (s : VRMState), RoundsCoherent s →
      RoundsCoherent (runTrace cfg s ops).1 := by
  intro ops
  induction ops with
  | nil => intro s h; exact h
  | cons op rest ih =>
      intro s h
      rw [runTrace_cons_eq]
      exact ih (runOp cfg s op).1 (runOp_coherent cfg s op h)

/-- Running an appended trace equals continuing from the intermediate
state. -/
theorem runTrace_append_fst (cfg : EpochCfg) :
    ∀ (ops more : List VRMOp) (s : VRMState),
      (runTrace cfg s (ops ++ more)).1 =
        (runTrace cfg (runTrace cfg s ops).1 more).1 := by
  intro ops
  induction ops with
  | nil => intro more s; rfl
  | cons op rest ih =>
      intro more s
      rw [List.cons_append, runTrace_cons_eq, runTrace_cons_eq]
      exact ih more (runOp cfg s op).1

/-- All round ids ever output by a trace exceed the starting `finalized`. -/
theorem runTrace_out_lower (cfg : EpochCfg) :
    ∀ (ops : List VRMOp) (s : VRMState) (k : Nat), RoundsCoherent s →
      ∀ r' ∈ (runTrace cfg s ops).2.getD k [],
        s.finalized < r'.voting_epoch.id := by
  intro ops
  induction ops with
  | nil => intro s k _ r' hr'; simp [runTrace] at hr'
  | cons op rest ih =>
      intro s k hcoh r' hr'
      rw [runTrace_cons_eq] at hr'
      cases k with
      | zero =>
          exact (runOp_out_bounds cfg s op hcoh r' (by simpa using hr')).1
      | succ k' =>
          have hr'' : r' ∈ (runTrace cfg (runOp cfg s op).1 rest).2.getD k' [] := by
            simpa using hr'
          exact lt_of_le_of_lt (runOp_fin_mono cfg s op)
            (ih (runOp cfg s op).1 k' (runOp_coherent cfg s op hcoh) r' hr'')

/-- Outputs of two different operations of one trace never share a round
id. -/
theorem runTrace_out_disjoint (cfg : EpochCfg) :
    ∀ (ops : List VRMOp) (s : VRMState) (i j : Nat), RoundsCoherent s →
      i < j →
      ∀ r ∈ (runTrace cfg s ops).2.getD i [],
      ∀ r' ∈ (runTrace cfg s ops).2.getD j [],
        r.voting_epoch.id ≠ r'.voting_epoch.id := by
  intro ops
  induction ops with
  | nil => intro s i j _ _ r hr; simp [runTrace] at hr
  | cons op rest ih =>
      intro s i j hcoh hij r hr r' hr'
      rw [runTrace_cons_eq] at hr hr'
      cases i with
      | zero =>
          obtain ⟨j', rfl⟩ : ∃ j', j = j' + 1 := ⟨j - 1, by omega⟩
          have hub := (runOp_out_bounds cfg s op hcoh r (by simpa using hr)).2
          have hlb := runTrace_out_lower cfg rest (runOp cfg s op).1 j'
            (runOp_coherent cfg s op hcoh) r' (by simpa using hr')
          omega
      | succ i' =>
          obtain ⟨j', rfl⟩ : ∃ j', j = j' + 1 := ⟨j - 1, by omega⟩
          exact ih (runOp cfg s op).1 i' j' (runOp_coherent cfg s op hcoh)
            (by omega) r (by simpa using hr) r' (by simpa using hr')

/-- C3: across any sequence of `finalize` calls on a `VotingRoundManager`
constructed with counter `f` (interleaved with arbitrary `get` calls), the
`finalized` counter never decreases, and no voting-epoch id appears in the
round lists returned by two different operations of the trace (in
particular, by two different `finalize` calls). -/
theorem C3_finalize_monotone_disjoint (cfg : EpochCfg) (f : Int)
    (ops more : List VRMOp) (i j : Nat) (hij : i < j) :
    ((runTrace cfg (VRMState.init f) ops).1.finalized ≤
      (runTrace cfg (VRMState.init f) (ops ++ more)).1.finalized)
    ∧ ∀ r ∈ (runTrace cfg (VRMState.init f) ops).2.getD i [],
      ∀ r' ∈ (runTrace cfg (VRMState.init f) ops).2.getD j [],
        r.voting_epoch.id ≠ r'.voting_epoch.id := by
  have hcoh : RoundsCoherent (VRMState.init f) := by
    intro p hp; cases hp
  constructor
  · rw [runTrace_append_fst]
    exact runTrace_fin_mono cfg more (runTrace cfg (VRMState.init f) ops).1
  · exact runTrace_out_disjoint cfg ops (VRMState.init f) i j hcoh hij

/-- C2 (counterexample): the invariant "every key of the rounds map has id
strictly greater than `finalized`" fails on a state reached by a single
`get` call: a manager constructed with `finalized = 1` that receives
`get(epoch 1)` stores a round with id `1 ≤ 1`. -/
theorem C2_counterexample :
    ¬ ∀ p ∈ ((runTrace ⟨0, 90⟩ (VRMState.init 1) [VRMOp.get ⟨1⟩]).1).rounds,
        ((runTrace ⟨0, 90⟩ (VRMState.init 1) [VRMOp.get ⟨1⟩]).1).finalized
          < p.1.id := by
  decide

/-- C2 (amended): `get` may insert rounds at or below `finalized`, so the
invariant holds not of every reachable state but of every state just after a
`finalize` call: for any state with distinct round keys and positive epoch
duration, after `finalize` every remaining key has id strictly greater than
the updated `finalized` counter (the next `finalize` drops the late keys
`get` inserted without returning them). -/
theorem C2_rounds_above_finalized (cfg : EpochCfg) (s : VRMState) (ts : Int)
    (hdur : 0 < cfg.dur) (hnd : (s.rounds.map Prod.fst).Nodup) :
    ∀ p ∈ (s.finalize cfg ts).2.rounds,
      (s.finalize cfg ts).2.finalized < p.1.id := by
  intro p hp
  rw [VRMState.finalize_eq] at hp ⊢
  refine finalizeLoop_keys_above cfg ts hdur s.rounds s.finalized s.rounds []
    hnd ?_ p hp
  intro q hq
  exact Or.inl (List.mem_map_of_mem Prod.fst hq)

/-- Unfolding the entity-construction loop on a voter with a weight
available. -/
theorem buildEntities_cons (spa : List (Address × Address))
    (vres : List (Address × VoterRegistered))
    (vries : List (Address × VoterRegistrationInfo)) (voter : Address)
    (vs : List Address) (w : Int) (ws : List Int) :
    buildEntities spa vres vries (voter :: vs) (w :: ws) =
      match pyGet spa voter with
      | none => none
      | some v0 =>
          match pyGet vres v0, pyGet vries v0 with
          | some vre, some vrie =>
              match buildEntities spa vres vries vs ws with
              | none => none
              | some rest => some (mkEntityFrom vre vrie w :: rest)
          | _, _ => none := rfl

/-- What a successful `buildEntities` run produces: one entity per voter, in
order, resolved through the three indexes, with the matching weight. -/
theorem buildEntities_spec (spa : List (Address × Address))
    (vres : List (Address × VoterRegistered))
    (vries : List (Address × VoterRegistrationInfo)) :
    ∀ (voters : List Address) (weights : List Int) (es : List Entity),
      buildEntities spa vres vries voters weights = some es →
      es.length = voters.length ∧
      ∀ i, i < voters.length →
        ∃ voter w v0 vre vrie,
          voters[i]? = some voter ∧ weights[i]? = some w ∧
          pyGet spa voter = some v0 ∧
          pyGet vres v0 = some vre ∧ pyGet vries v0 = some vrie ∧
          es[i]? = some (mkEntityFrom vre vrie w) := by
  intro voters
  induction voters with
  | nil =>
      intro weights es h
      have : es = [] := by
        have : (some [] : Option (List Entity)) = some es := h
        injection this with h'
        exact h'.symm
      subst this
      exact ⟨rfl, fun i hi => absurd hi (by simp)⟩
  | cons voter vs ih =>
      intro weights es h
      cases weights with
      | nil => cases h
      | cons w ws =>
          rw [buildEntities_cons] at h
          split at h
          · cases h
          · rename_i v0 h0
            split at h
            · rename_i vre vrie h1 h2
              split at h
              · cases h
              · rename_i rest hrec
                injection h with h'
                subst h'
                obtain ⟨hlen, hall⟩ := ih ws rest hrec
                refine ⟨by simp [hlen], ?_⟩
                intro i hi
                cases i with
                | zero =>
                    exact ⟨voter, w, v0, vre, vrie, by simp, by simp, h0, h1,
                      h2, by simp⟩
                | succ i' =>
                    obtain ⟨voter', w', v0', vre', vrie', ha, hb', hc, hd, he,
                      hf⟩ := hall i' (by simpa using hi)
                    exact ⟨voter', w', v0', vre', vrie', by simpa using ha,
                      by simpa using hb', hc, hd, he, by simpa using hf⟩
            · cases h

/-- C4: for every builder on which `build()` succeeds, the resulting
`SigningPolicy.entities` has exactly one entry per element of
`signing_policy_initialized.voters`, in the same order; entry `i` is the
entity constructed from the `VoterRegistered` / `VoterRegistrationInfo`
events found through the `signing_policy_address → voter` index at
`voters[i]`, and its `normalized_weight` equals `weights[i]`. -/
theorem C4_build_entities (b : SigningPolicyBuilder) (sp : SigningPolicy)
    (hb : b.build = some sp) :
    ∃ spi, b.signing_policy_initialized = some spi ∧
      sp.entities.length = spi.voters.length ∧
      ∀ i, i < spi.voters.length →
        ∃ voter w v0 vre vrie,
          spi.voters[i]? = some voter ∧ spi.weights[i]? = some w ∧
          pyGet (spaIndex b.voter_registered) voter = some v0 ∧
          pyGet (vresIndex b.voter_registered) v0 = some vre ∧
          pyGet (vriesIndex b.voter_registration_info) v0 = some vrie ∧
          sp.entities[i]? = some (mkEntityFrom vre vrie w) ∧
          (mkEntityFrom vre vrie w).normalized_weight = w := by
  unfold SigningPolicyBuilder.build at hb
  split at hb
  · cases hb
  rename_i re hre
  split at hb
  · cases hb
  rename_i ras hras
  split at hb
  · cases hb
  split at hb
  · cases hb
  rename_i vpbs hvpbs
  split at hb
  · cases hb
  split at hb
  · cases hb
  rename_i spi hspi
  split at hb
  · cases hb
  split at hb
  · cases hb
  split at hb
  · cases hb
  rename_i entities hents
  injection hb with hb'
  obtain ⟨hlen, hall⟩ := buildEntities_spec _ _ _ _ _ _ hents
  refine ⟨spi, hspi, ?_, ?_⟩
  · rw [← hb']; exact hlen
  · intro i hi
    obtain ⟨voter, w, v0, vre, vrie, ha, hbw, hc, hd, he, hf⟩ := hall i hi
    exact ⟨voter, w, v0, vre, vrie, ha, hbw, hc, hd, he, by rw [← hb']; exact hf,
      rfl⟩

/-- The bit test `(b >> shift) & 1 == 1` of the source is `Nat.testBit`. -/
theorem bitBool_eq_testBit (b s : Nat) :
    ((b >>> s) &&& 1 == 1) = b.testBit s := by
  simp only [Nat.testBit_to_div_mod, Nat.and_one_is_mod,
    Nat.shiftRight_eq_div_pow]
  rw [Bool.eq_iff_iff]
  simp

/-- Big-endian fold of the byte list equals the little-endian value of its
reversal. -/
theorem beNat_eq_leNat_reverse :
    ∀ votes : List Nat, beNat votes = leNat votes.reverse := by
  have aux : ∀ (l : List Nat) (b : Nat), beNat (l ++ [b]) = (beNat l) * 256 + b := by
    intro l b
    unfold beNat
    rw [List.foldl_append]
    rfl
  intro votes
  induction votes using List.reverseRecOn with
  | nil => rfl
  | append_singleton l b ih =>
      rw [aux, List.reverse_append]
      show beNat l * 256 + b = leNat (b :: l.reverse)
      show beNat l * 256 + b = b + 256 * leNat l.reverse
      rw [ih]
      ring

/-- Bits of `b + 256 * M` for a byte `b`: positions `0..7` come from `b`,
higher positions from `M`. -/
theorem testBit_byte_concat (b M t : Nat) (hb : b < 256) :
    (b + 256 * M).testBit t = if t < 8 then b.testBit t else M.testBit (t - 8) := by
  have h : b + 256 * M = 2 ^ 8 * M + b := by ring
  have hb2 : b < 2 ^ 8 := by simpa using hb
  rw [h, Nat.testBit_mul_pow_two_add M hb2 t]

/-- A byte `b < 256` has a set bit at a position `s` with `n ≤ 8j + s` iff
`2^(n - 8j) ≤ b`. -/
theorem high_bit_iff (n j b : Nat) (hb : b < 256) :
    (∃ s, s < 8 ∧ n ≤ 8*j + s ∧ b.testBit s = true) ↔ 2^(n - 8*j) ≤ b := by
  constructor
  · rintro ⟨s, _, hns, hbit⟩
    have h1 : 2^s ≤ b := Nat.testBit_implies_ge hbit
    have h2 : n - 8*j ≤ s := by omega
    exact le_trans (Nat.pow_le_pow_right (by norm_num) h2) h1
  · intro h
    have hbk : b >>> (n - 8*j) ≠ 0 := by
      rw [Nat.shiftRight_eq_div_pow]
      have : 1 ≤ b / 2 ^ (n - 8*j) :=
        (Nat.one_le_div_iff (Nat.two_pow_pos _)).mpr h
      omega
    obtain ⟨i, hi, _⟩ := Nat.exists_most_significant_bit hbk
    rw [Nat.testBit_shiftRight] at hi
    refine ⟨n - 8*j + i, ?_, by omega, hi⟩
    have hge : 2 ^ (n - 8*j + i) ≤ b := Nat.testBit_implies_ge hi
    by_contra hs
    push_neg at hs
    have : (256:Nat) ≤ 2 ^ (n - 8*j + i) := by
      calc (256:Nat) = 2^8 := by norm_num
      _ ≤ 2 ^ (n - 8*j + i) := Nat.pow_le_pow_right (by norm_num) hs
    omega

/-- Carving one byte off the packed value: when the byte itself is below the
threshold, the threshold test transfers to the remaining bytes shifted by
8 bits. -/
theorem pow_le_byte_add (k b M' : Nat) (hb : b < 256) (hnb : ¬ 2^k ≤ b) :
    (2^k ≤ b + 256*M') ↔ (2^(k - 8) ≤ M') := by
  rcases le_or_lt 8 k with hk | hk
  · have h2 : (2:Nat)^k = 256 * 2^(k-8) := by
      have : (2:Nat)^k = 2^8 * 2^(k-8) := by
        rw [← pow_add]
        congr 1
        omega
      simpa using this
    rw [h2] at hnb ⊢
    constructor <;> intro h <;> by_contra hc <;> push_neg at hc <;> omega
  · have hk8 : k - 8 = 0 := by omega
    rw [hk8, pow_zero]
    have h2k : (2:Nat)^k < 256 := by
      calc (2:Nat)^k ≤ 2^7 := Nat.pow_le_pow_right (by norm_num) (by omega)
      _ < 256 := by norm_num
    push_neg at hnb
    constructor
    · intro h
      by_contra hM
      push_neg at hM
      omega
    · intro h
      omega

theorem getD_set_self (l : List Bool) (i : Nat) (a : Bool)
    (h : i < l.length) : (l.set i a).getD i false = a := by
  rw [List.getD_eq_getElem?_getD, List.getElem?_set_self h]
  rfl

theorem getD_set_ne (l : List Bool) (i j : Nat) (a : Bool) (h : i ≠ j) :
    (l.set i a).getD j false = l.getD j false := by
  rw [List.getD_eq_getElem?_getD, List.getElem?_set_ne h,
    ← List.getD_eq_getElem?_getD]

/-- Unfolding the shift loop on one shift value. -/
theorem inflateShifts_cons_eq (n b j shift : Nat) (rest : List Nat)
    (arr : List Bool) :
    inflateShifts n b j (shift :: rest) arr =
      if ((n : Int) - 1 - (j : Int) * 8 - (shift : Int)) < 0
          ∧ ((b >>> shift) &&& 1 == 1) then
        .error (.valueError "Invalid payload length.")
      else if 0 ≤ ((n : Int) - 1 - (j : Int) * 8 - (shift : Int)) then
        inflateShifts n b j rest
          (arr.set ((n : Int) - 1 - (j : Int) * 8 - (shift : Int)).toNat
            ((b >>> shift) &&& 1 == 1))
      else inflateShifts n b j rest arr := rfl

/-- What the shift loop does over an arbitrary list of shifts: it raises
exactly when some shift in the list hits a set bit whose position falls
before index 0, and otherwise writes each in-bounds bit at its position. -/
theorem inflateShifts_spec (n b j : Nat) :
    ∀ (shifts : List Nat) (arr : List Bool), arr.length = n →
      if ∃ s ∈ shifts, n ≤ 8*j + s ∧ b.testBit s = true then
        inflateShifts n b j shifts arr =
          .error (.valueError "Invalid payload length.")
      else ∃ arr', inflateShifts n b j shifts arr = .ok arr' ∧
        arr'.length = n ∧
        ∀ m, arr'.getD m false =
          if ∃ s ∈ shifts, m + 8*j + s + 1 = n then
            b.testBit (n - 1 - m - 8*j)
          else arr.getD m false := by
  intro shifts
  induction shifts with
  | nil =>
      intro arr harr
      rw [if_neg (by simp)]
      exact ⟨arr, rfl, harr, fun m => by rw [if_neg (by simp)]⟩
  | cons s0 rest ih =>
      intro arr harr
      by_cases hA : n ≤ 8*j + s0 ∧ b.testBit s0 = true
      · -- the bit at s0 is set and out of range: the loop raises at s0
        have hi : ((n : Int) - 1 - (j : Int) * 8 - (s0 : Int)) < 0 := by
          have := hA.1
          omega
        rw [if_pos ⟨s0, List.mem_cons_self _ _, hA⟩, inflateShifts_cons_eq]
        rw [if_pos ⟨hi, by rw [bitBool_eq_testBit]; exact hA.2⟩]
      · by_cases hi : ((n : Int) - 1 - (j : Int) * 8 - (s0 : Int)) < 0
        · -- out of range but the bit is clear: skip s0
          have hns : n ≤ 8*j + s0 := by omega
          have hbit : ¬ b.testBit s0 = true := fun hb' => hA ⟨hns, hb'⟩
          have hred : inflateShifts n b j (s0 :: rest) arr
              = inflateShifts n b j rest arr := by
            rw [inflateShifts_cons_eq]
            rw [if_neg (by
              rintro ⟨-, h2⟩
              rw [bitBool_eq_testBit] at h2
              exact hbit h2)]
            rw [if_neg (by omega)]
          have hrec := ih arr harr
          by_cases hrest : ∃ s ∈ rest, n ≤ 8*j + s ∧ b.testBit s = true
          · rw [if_pos hrest] at hrec
            rw [if_pos (by
              rcases hrest with ⟨s, hs1, hs2⟩
              exact ⟨s, List.mem_cons_of_mem _ hs1, hs2⟩)]
            rw [hred]
            exact hrec
          · rw [if_neg hrest] at hrec
            rw [if_neg (by
              rintro ⟨s, hs1, hs2⟩
              rcases List.mem_cons.mp hs1 with rfl | hs1
              · exact hA hs2
              · exact hrest ⟨s, hs1, hs2⟩)]
            obtain ⟨arr', h1, h2, h3⟩ := hrec
            refine ⟨arr', by rw [hred]; exact h1, h2, fun m => ?_⟩
            rw [h3 m]
            by_cases hm : ∃ s ∈ rest, m + 8*j + s + 1 = n
            · rw [if_pos hm, if_pos (by
                rcases hm with ⟨s, u1, u2⟩
                exact ⟨s, List.mem_cons_of_mem _ u1, u2⟩)]
            · rw [if_neg hm, if_neg (by
                rintro ⟨s, u1, u2⟩
                rcases List.mem_cons.mp u1 with rfl | u1
                · omega
                · exact hm ⟨s, u1, u2⟩)]
        · -- in-bounds write at position n - 1 - 8j - s0
          push_neg at hi
          have hlt : 8*j + s0 + 1 ≤ n := by omega
          have hred : inflateShifts n b j (s0 :: rest) arr
              = inflateShifts n b j rest
                  (arr.set ((n : Int) - 1 - (j : Int) * 8 - (s0 : Int)).toNat
                    ((b >>> s0) &&& 1 == 1)) := by
            rw [inflateShifts_cons_eq]
            rw [if_neg (by rintro ⟨h1, -⟩; omega)]
            rw [if_pos hi]
          have harr2 :
              (arr.set ((n : Int) - 1 - (j : Int) * 8 - (s0 : Int)).toNat
                ((b >>> s0) &&& 1 == 1)).length = n := by
            rw [List.length_set]
            exact harr
          have hrec := ih _ harr2
          by_cases hrest : ∃ s ∈ rest, n ≤ 8*j + s ∧ b.testBit s = true
          · rw [if_pos hrest] at hrec
            rw [if_pos (by
              rcases hrest with ⟨s, hs1, hs2⟩
              exact ⟨s, List.mem_cons_of_mem _ hs1, hs2⟩)]
            rw [hred]
            exact hrec
          · rw [if_neg hrest] at hrec
            rw [if_neg (by
              rintro ⟨s, hs1, hs2⟩
              rcases List.mem_cons.mp hs1 with rfl | hs1
              · omega
              · exact hrest ⟨s, hs1, hs2⟩)]
            obtain ⟨arr', h1, h2, h3⟩ := hrec
            refine ⟨arr', by rw [hred]; exact h1, h2, fun m => ?_⟩
            rw [h3 m]
            by_cases hm : ∃ s ∈ rest, m + 8*j + s + 1 = n
            · rw [if_pos hm, if_pos (by
                rcases hm with ⟨s, u1, u2⟩
                exact ⟨s, List.mem_cons_of_mem _ u1, u2⟩)]
            · rw [if_neg hm]
              by_cases hms0 :
                  m = ((n : Int) - 1 - (j : Int) * 8 - (s0 : Int)).toNat
              · subst hms0
                rw [getD_set_self _ _ _ (by omega)]
                rw [if_pos ⟨s0, List.mem_cons_self _ _, by omega⟩]
                rw [bitBool_eq_testBit]
                congr 1
                omega
              · rw [getD_set_ne _ _ _ _ (fun h => hms0 h.symm)]
                rw [if_neg (by
                  rintro ⟨s, u1, u2⟩
                  rcases List.mem_cons.mp u1 with rfl | u1
                  · exact hms0 (by omega)
                  · exact hm ⟨s, u1, u2⟩)]

/-- One byte of the double loop: raises iff `2^(n - 8j) ≤ b`, otherwise
writes bits `0..7` of `b` at positions `n-1-8j-s` (when in bounds). -/
theorem inflateByte_spec (n b j : Nat) (hb : b < 256) (arr : List Bool)
    (harr : arr.length = n) :
    if 2^(n - 8*j) ≤ b then
      inflateShifts n b j (List.range 8) arr =
        .error (.valueError "Invalid payload length.")
    else ∃ arr', inflateShifts n b j (List.range 8) arr = .ok arr' ∧
      arr'.length = n ∧
      ∀ m, arr'.getD m false =
        if m + 8*j < n ∧ n ≤ m + 8*j + 8 then b.testBit (n - 1 - m - 8*j)
        else arr.getD m false := by
  have h := inflateShifts_spec n b j (List.range 8) arr harr
  have hcond : (∃ s ∈ List.range 8, n ≤ 8*j + s ∧ b.testBit s = true)
      ↔ 2^(n - 8*j) ≤ b := by
    rw [← high_bit_iff n j b hb]
    constructor
    · rintro ⟨s, hs, h1, h2⟩
      exact ⟨s, List.mem_range.mp hs, h1, h2⟩
    · rintro ⟨s, hs, h1, h2⟩
      exact ⟨s, List.mem_range.mpr hs, h1, h2⟩
  by_cases hc : 2^(n - 8*j) ≤ b
  · rw [if_pos hc]
    rw [if_pos (hcond.mpr hc)] at h
    exact h
  · rw [if_neg hc]
    rw [if_neg (fun hx => hc (hcond.mp hx))] at h
    obtain ⟨arr', h1, h2, h3⟩ := h
    refine ⟨arr', h1, h2, fun m => ?_⟩
    rw [h3 m]
    have hm : (∃ s ∈ List.range 8, m + 8*j + s + 1 = n)
        ↔ (m + 8*j < n ∧ n ≤ m + 8*j + 8) := by
      constructor
      · rintro ⟨s, hs, he⟩
        have := List.mem_range.mp hs
        omega
      · rintro ⟨h1', h2'⟩
        exact ⟨n - (m + 8*j) - 1, List.mem_range.mpr (by omega), by omega⟩
    by_cases hmm : m + 8*j < n ∧ n ≤ m + 8*j + 8
    · rw [if_pos (hm.mpr hmm), if_pos hmm]
    · rw [if_neg (fun hx => hmm (hm.mp hx)), if_neg hmm]

/-- Unfolding the byte loop on one byte. -/
theorem inflateBytes_cons_eq (n b : Nat) (bs : List Nat) (j : Nat)
    (arr : List Bool) :
    inflateBytes n (b :: bs) j arr =
      match inflateShifts n b j (List.range 8) arr with
      | .error e => .error e
      | .ok arr' => inflateBytes n bs (j+1) arr' := rfl

/-- The byte loop from byte index `j` on: raises iff the little-endian value
of the remaining bytes reaches `2^(n - 8j)`, and otherwise fills positions
`m` with `m + 8j < n` with the corresponding bit of that value. -/
theorem inflateBytes_spec (n : Nat) :
    ∀ (bs : List Nat) (j : Nat) (arr : List Bool),
      (∀ b ∈ bs, b < 256) → arr.length = n →
      (∀ m, m + 8*j < n → arr.getD m false = false) →
      if 2^(n - 8*j) ≤ leNat bs then
        inflateBytes n bs j arr = .error (.valueError "Invalid payload length.")
      else ∃ arr', inflateBytes n bs j arr = .ok arr' ∧ arr'.length = n ∧
        ∀ m, m < n → arr'.getD m false =
          (if m + 8*j < n then (leNat bs).testBit (n - 1 - m - 8*j)
           else arr.getD m false) := by
  intro bs
  induction bs with
  | nil =>
      intro j arr hb harr hfalse
      have h0 : leNat [] = 0 := rfl
      rw [h0, if_neg (by have := Nat.two_pow_pos (n - 8*j); omega)]
      refine ⟨arr, rfl, harr, fun m hm => ?_⟩
      by_cases hA : m + 8*j < n
      · rw [if_pos hA, Nat.zero_testBit]
        exact hfalse m hA
      · rw [if_neg hA]
  | cons b bs ihb =>
      intro j arr hb harr hfalse
      have hb0 : b < 256 := hb b (List.mem_cons_self _ _)
      have hbs : ∀ x ∈ bs, x < 256 := fun x hx => hb x (List.mem_cons_of_mem _ hx)
      have hle : leNat (b :: bs) = b + 256 * leNat bs := rfl
      have hbyte := inflateByte_spec n b j hb0 arr harr
      by_cases hc0 : 2^(n - 8*j) ≤ b
      · rw [if_pos hc0] at hbyte
        rw [if_pos (by rw [hle]; exact le_trans hc0 (by omega))]
        rw [inflateBytes_cons_eq, hbyte]
      · rw [if_neg hc0] at hbyte
        obtain ⟨arr2, h1, h2, h3⟩ := hbyte
        have hfalse2 : ∀ m, m + 8*(j+1) < n → arr2.getD m false = false := by
          intro m hm
          rw [h3 m]
          rw [if_neg (by rintro ⟨-, hx⟩; omega)]
          exact hfalse m (by omega)
        have hrec := ihb (j+1) arr2 hbs h2 hfalse2
        have hbridge := pow_le_byte_add (n - 8*j) b (leNat bs) hb0 hc0
        have hsub : n - 8*j - 8 = n - 8*(j+1) := by omega
        by_cases hcM : 2^(n - 8*(j+1)) ≤ leNat bs
        · rw [if_pos hcM] at hrec
          rw [if_pos (by rw [hle]; exact hbridge.mpr (by rw [hsub]; exact hcM))]
          rw [inflateBytes_cons_eq, h1]
          exact hrec
        · rw [if_neg hcM] at hrec
          rw [if_neg (by
            rw [hle]
            intro hx
            exact hcM (by rw [← hsub]; exact hbridge.mp hx))]
          obtain ⟨arr3, g1, g2, g3⟩ := hrec
          refine ⟨arr3, by rw [inflateBytes_cons_eq, h1]; exact g1, g2, ?_⟩
          intro m hm
          rw [g3 m hm, hle]
          by_cases hA : m + 8*(j+1) < n
          · rw [if_pos hA, if_pos (show m + 8*j < n by omega)]
            rw [testBit_byte_concat _ _ _ hb0]
            rw [if_neg (show ¬ (n - 1 - m - 8*j < 8) by omega)]
            congr 1
          · rw [if_neg hA, h3 m]
            by_cases hB : m + 8*j < n
            · rw [if_pos (show m + 8*j < n ∧ n ≤ m + 8*j + 8 from
                ⟨hB, by omega⟩), if_pos hB]
              rw [testBit_byte_concat _ _ _ hb0]
              rw [if_pos (show n - 1 - m - 8*j < 8 by omega)]
            · rw [if_neg (show ¬ (m + 8*j < n ∧ n ≤ m + 8*j + 8) from
                fun h => hB h.1), if_neg hB]

/-- C5: consensus-bitvote inflation is the inverse of the little-endian
packed bit encoding of length `n_requests`: writing `N` for the packed-bits
value of the remainder bytes, it raises `Invalid payload length` exactly
when `N` has a set bit at or beyond position `n_requests` (i.e. when
`2^n_requests ≤ N`), and otherwise produces the boolean array of length
`n_requests` whose entry `i` is bit `n_requests - 1 - i` of `N`. -/
theorem C5_bitvote_inflation (n : Nat) (votes : List Nat)
    (hb : ∀ b ∈ votes, b < 256) :
    inflateBitvote n votes =
      if 2^n ≤ beNat votes then
        .error (.valueError "Invalid payload length.")
      else
        .ok ((List.range n).map (fun i => (beNat votes).testBit (n - 1 - i))) := by
  unfold inflateBitvote
  rw [beNat_eq_leNat_reverse]
  have hb' : ∀ b ∈ votes.reverse, b < 256 :=
    fun b h => hb b (List.mem_reverse.mp h)
  have harr : (List.replicate n false).length = n := List.length_replicate n false
  have hfalse : ∀ m, m + 8*0 < n → (List.replicate n false).getD m false = false := by
    intro m hm
    rw [List.getD_eq_getElem?_getD, List.getElem?_replicate]
    split <;> rfl
  have h := inflateBytes_spec n votes.reverse 0 (List.replicate n false)
    hb' harr hfalse
  by_cases hc : 2^n ≤ leNat votes.reverse
  · rw [if_pos hc]
    rw [if_pos (by simpa using hc)] at h
    exact h
  · rw [if_neg hc]
    rw [if_neg (by simpa using hc)] at h
    obtain ⟨arr', h1, h2, h3⟩ := h
    rw [h1]
    congr 1
    apply List.ext_getElem
    · rw [h2, List.length_map, List.length_range]
    · intro i hi1 hi2
      have hin : i < n := by rw [h2] at hi1; exact hi1
      have hgd : arr'.getD i false = arr'[i] := by
        rw [List.getD_eq_getElem?_getD, List.getElem?_eq_getElem hi1]
        rfl
      have hmap : ((List.range n).map
          (fun i => (leNat votes.reverse).testBit (n - 1 - i)))[i]
            = (leNat votes.reverse).testBit (n - 1 - i) := by
        rw [List.getElem_map, List.getElem_range]
      rw [hmap, ← hgd, h3 i hin, if_pos (by omega)]
      congr 1

/-- C8: in the FTSO validator, if a submit_1 payload is selected in its
window but no submit_2 payload is selected in its window, the issues contain
the CRITICAL message `no submit2 transaction, causing reveal offence`; and
if no submit_1 payload is selected, the INFO `no submit1 transaction` is
produced and that CRITICAL message is not. -/
theorem C8_ftso_submit_issues (cfg : EpochCfg) (network : Int)
    (round : VotingRound) (entity : Entity) (reparse : Bytes → Int × Bytes)
    (ch : Address → Int → Int → Bytes → String)
    (rc : SSignature → Bytes → Address) :
    (ftsoSubmit1Sel cfg round entity ≠ none →
      ftsoSubmit2Sel cfg round entity = none →
      ∃ m ∈ validate_ftso cfg network round entity reparse ch rc,
        m.level = MessageLevel.CRITICAL ∧
        m.message = "no submit2 transaction, causing reveal offence")
    ∧ (ftsoSubmit1Sel cfg round entity = none →
      (∃ m ∈ validate_ftso cfg network round entity reparse ch rc,
        m.level = MessageLevel.INFO ∧ m.message = "no submit1 transaction")
      ∧ ∀ m ∈ validate_ftso cfg network round entity reparse ch rc,
        ¬ (m.level = MessageLevel.CRITICAL ∧
           m.message = "no submit2 transaction, causing reveal offence")) := by
  constructor
  · intro h1 h2
    rcases hx1 : ftsoSubmit1Sel cfg round entity with _ | w1
    · exact absurd hx1 h1
    refine ⟨mkMessage network (some round.voting_epoch) (some 100)
      MessageLevel.CRITICAL ("no submit2 transaction, causing reveal offence"),
      ?_, rfl, rfl⟩
    simp [validate_ftso, hx1, h2]
  · intro h1
    constructor
    · refine ⟨mkMessage network (some round.voting_epoch) (some 100)
        MessageLevel.INFO ("no submit1 transaction"), ?_, rfl, rfl⟩
      simp [validate_ftso, h1]
    · intro m hm
      rintro ⟨hlvl, hmsg⟩
      rcases hx2 : ftsoSubmit2Sel cfg round entity with _ | w2 <;>
        rcases hxs : ftsoSubmitSigSel cfg round entity with _ | ws <;>
        rcases hxf : round.ftso.finalization with _ | f <;>
        simp only [validate_ftso, h1, hx2, hxs, hxf, Option.isNone_none,
          Option.isNone_some, Option.isSome_none, Option.isSome_some,
          Bool.false_eq_true, false_and, and_false, and_true, true_and,
          if_true, if_false, ite_true, ite_false, List.append_nil,
          List.nil_append, List.singleton_append, List.cons_append] at hm <;>
        (try split_ifs at hm) <;>
        (try simp only [List.append_nil, List.nil_append,
          List.singleton_append, List.cons_append] at hm) <;>
        fin_cases hm <;>
        simp [mkMessage] at hlvl hmsg ⊢

/-- Unfolding `processTxs` on a cons. -/
theorem processTxs_cons_eq (sp : SigningPolicy) (P : SubmissionParsers)
    (sel : TargetSelectors) (s : VRMState) (tx : WTxData)
    (rest : List WTxData) :
    processTxs sp P sel s (tx :: rest) =
      ((processTxs sp P sel (stepTx sp P sel s tx).1 rest).1,
       (stepTx sp P sel s tx).2
         ++ (processTxs sp P sel (stepTx sp P sel s tx).1 rest).2) := rfl

/-- C9: per-transaction decode tolerance.  A transaction whose sender is not
in the omni index is skipped without invoking any parser; a transaction
whose sender resolves and whose selector matches but whose parse raises
leaves the state unchanged (the exception is swallowed, with the parse
attempt recorded); and such transactions are no-ops of the whole
per-block transaction loop, which proceeds with the remaining
transactions. -/
theorem C9_decode_tolerance (sp : SigningPolicy) (P : SubmissionParsers)
    (sel : TargetSelectors) :
    (∀ (s : VRMState) (wtx : WTxData),
      pyGet sp.entity_mapper.by_omni wtx.from_address = none →
      stepTx sp P sel s wtx = (s, []))
    ∧ (∀ (s : VRMState) (wtx : WTxData) (e : Entity) (mode : SubmitMode),
      pyGet sp.entity_mapper.by_omni wtx.from_address = some e →
      selectorMode sel (wtx.input.take 4) = some mode →
      parseFails P mode (wtx.input.drop 4) →
      stepTx sp P sel s wtx = (s, [⟨mode, wtx.input.drop 4⟩]))
    ∧ (∀ (s : VRMState) (txs1 txs2 : List WTxData) (wtx : WTxData),
      (pyGet sp.entity_mapper.by_omni wtx.from_address = none ∨
        (∃ e mode, pyGet sp.entity_mapper.by_omni wtx.from_address = some e ∧
          selectorMode sel (wtx.input.take 4) = some mode ∧
          parseFails P mode (wtx.input.drop 4))) →
      (processTxs sp P sel s (txs1 ++ wtx :: txs2)).1 =
        (processTxs sp P sel s (txs1 ++ txs2)).1) := by
  have hskip : ∀ (s : VRMState) (wtx : WTxData),
      pyGet sp.entity_mapper.by_omni wtx.from_address = none →
      stepTx sp P sel s wtx = (s, []) := by
    intro s wtx h
    unfold stepTx
    rw [h]
  have hswallow : ∀ (s : VRMState) (wtx : WTxData) (e : Entity)
      (mode : SubmitMode),
      pyGet sp.entity_mapper.by_omni wtx.from_address = some e →
      selectorMode sel (wtx.input.take 4) = some mode →
      parseFails P mode (wtx.input.drop 4) →
      stepTx sp P sel s wtx = (s, [⟨mode, wtx.input.drop 4⟩]) := by
    intro s wtx e mode h1 h2 hf
    unfold stepTx
    rw [h1]
    cases mode with
    | submit1 =>
        obtain ⟨err, herr⟩ := hf
        simp only [h2, herr]
    | submit2 =>
        obtain ⟨err, herr⟩ := hf
        simp only [h2, herr]
    | submitSignatures =>
        obtain ⟨err, herr⟩ := hf
        simp only [h2, herr]
  refine ⟨hskip, hswallow, ?_⟩
  intro s txs1 txs2 wtx hbad
  have hstep : ∀ s', (stepTx sp P sel s' wtx).1 = s' := by
    intro s'
    rcases hbad with h | ⟨e, mode, h1, h2, hf⟩
    · rw [hskip s' wtx h]
    · rw [hswallow s' wtx e mode h1 h2 hf]
  induction txs1 generalizing s with
  | nil =>
      rw [List.nil_append, List.nil_append, processTxs_cons_eq, hstep s]
  | cons t ts ih =>
      rw [List.cons_append, List.cons_append, processTxs_cons_eq,
        processTxs_cons_eq]
      exact ih (stepTx sp P sel s t).1

/-- C10: whenever a round's FDC consensus-bitvote tally map is empty (no FDC
submitSignatures payload was ingested for the round from any entity, the
monitored identity included), `validate_fdc` raises — indexing the empty
sorted tally list — before producing any issue. -/
theorem C10_empty_bitvote_raises (cfg : EpochCfg) (network : Int)
    (round : VotingRound) (entity : Entity)
    (rc : SSignature → Bytes → Address)
    (hbv : round.fdc.consensus_bitvote = []) :
    validate_fdc cfg network round entity rc = .error .indexError := by
  unfold validate_fdc
  rw [hbv]
  rfl

/-- C1: the live policy-rollover guard at observer.py line 596 compares the
int `start_voting_round_id` with the `VotingEpoch` object itself instead of
its `id` (as the spec requires), so the swap never fires: on a fully-built
next policy whose `start_voting_round_id` is 5, at the first block of voting
epoch 5 the code keeps the old `signing_policy` and the old builder, while
the spec's condition swaps in `spb.build()` and a fresh builder for the next
reward epoch. -/
theorem C1_rollover_divergence :
    rolloverStep C1_spb C1_sp0 ⟨5⟩ = .ok (C1_sp0, C1_spb)
    ∧ rolloverStepSpec C1_spb C1_sp0 ⟨5⟩ =
        .ok (C1_builtSP, SigningPolicyBuilder.empty.for_epoch
          C1_builtSP.reward_epoch.next)
    ∧ C1_builtSP ≠ C1_sp0 := by
  refine ⟨rfl, by rfl, by decide⟩

/-! ## Witnesses -/

/-- Witness for C2 (amended): on a concrete manager the hypotheses hold and
the surviving key (epoch 9) sits strictly above the updated counter. -/
theorem C2_rounds_above_finalized_witness :
    ((w2_s.finalize wCfg 300).2).finalized
      < ((⟨9⟩ : VotingEpoch), VotingRound.fresh ⟨9⟩).1.id :=
  C2_rounds_above_finalized wCfg w2_s 300 (by decide) (by decide)
    (⟨9⟩, VotingRound.fresh ⟨9⟩) (by decide)

/-- Witness for C3 on a concrete trace with two nonempty finalize outputs. -/
theorem C3_finalize_monotone_disjoint_witness :
    (VotingRound.fresh ⟨5⟩).voting_epoch.id
      ≠ (VotingRound.fresh ⟨7⟩).voting_epoch.id :=
  (C3_finalize_monotone_disjoint wCfg 0 w3_ops [] 1 3 (by decide)).2
    (VotingRound.fresh ⟨5⟩) (by decide) (VotingRound.fresh ⟨7⟩) (by decide)

/-- Witness for C4: a concrete builder builds, and the claim instance pins
its entity list to one entry (one voter listed). -/
theorem C4_build_entities_witness : C1_builtSP.entities.length = 1 := by
  obtain ⟨spi, hspi, hlen, -⟩ := C4_build_entities C1_spb C1_builtSP rfl
  have hval : (some (⟨7, 5, 10, 42, "spb", [21], [3]⟩ : SigningPolicyInitialized))
      = some spi :=
    (show C1_spb.signing_policy_initialized
        = some (⟨7, 5, 10, 42, "spb", [21], [3]⟩ : SigningPolicyInitialized)
      from rfl).symm.trans hspi
  injection hval with hval'
  rw [hlen, ← hval']
  rfl

/-- Witness for C5 on a concrete byte string: `0b101` inflates to
`[true, false, true]` at `n_requests = 3`. -/
theorem C5_bitvote_inflation_witness :
    inflateBitvote 3 [5] = .ok [true, false, true] :=
  (C5_bitvote_inflation 3 [5] (by decide)).trans (by rfl)

/-- Witness for C6 on a concrete list: the selected maximum dominates the
other in-range element. -/
theorem C6_extract_latest_witness :
    (w6_pp 10).wtx_data.timestamp ≤ (w6_pp 50).wtx_data.timestamp :=
  ((C6_extract_latest w6_list 0 100).2 (w6_pp 50) (by decide)).2.2
    (w6_pp 10) (by decide) (by decide)

/-- Witness for C7 on a concrete mapper: an element of `sorted()` belongs to
the aggregated list. -/
theorem C7_requests_sorted_witness : w7_ar 1 0 [1] ∈ w7_mapper.agg :=
  (C7_requests_sorted w7_mapper).2.2.1 (w7_ar 1 0 [1]) (by decide)

/-- Witness for C8: on a round with submit_1 present and submit_2 absent the
validator produces issues. -/
theorem C8_ftso_submit_issues_witness :
    validate_ftso wCfg 14 w8_round w8_entity w8_reparse w8_ch w8_rc ≠ [] := by
  obtain ⟨m, hm, -, -⟩ :=
    (C8_ftso_submit_issues wCfg 14 w8_round w8_entity w8_reparse w8_ch
      w8_rc).1 (by decide) (by decide)
  intro hnil
  rw [hnil] at hm
  cases hm

/-- Witness for C9: a matching-selector transaction whose parse raises
leaves the state untouched with one recorded attempt. -/
theorem C9_decode_tolerance_witness :
    stepTx w9_sp w9_P w9_sel (VRMState.init 0) w9_tx
      = (VRMState.init 0, [⟨SubmitMode.submit1, [77]⟩]) :=
  (C9_decode_tolerance w9_sp w9_P w9_sel).2.1 (VRMState.init 0) w9_tx
    w8_entity .submit1 (by decide) (by decide) ⟨(), rfl⟩

/-- Witness for C10 on a concrete round with no FDC submissions at all. -/
theorem C10_empty_bitvote_raises_witness :
    validate_fdc wCfg 14 w10_round w8_entity w8_rc = .error .indexError :=
  C10_empty_bitvote_raises wCfg 14 w10_round w8_entity w8_rc rfl

end FspObserver
